import Mathlib

/-!
Verification of the invoice-extraction / PO-matching engine of `app.py`
(PO-Request-app).  The Python functions are shallowly embedded as
executable Lean functions over `List Char` / `String`; floating-point
scores are modelled with exact rationals (the score constants 0.95,
0.80, 0.60, 0.50, 0.98 and the 0.6 / 0.75 / 0.70 thresholds are all
exactly representable and the comparisons performed by the code agree
with the rational ones), and the regular-expression searches of the
source are translated pattern-by-pattern into deterministic scanning
functions with Python `re` leftmost / greedy semantics.
-/

set_option maxHeartbeats 1000000

namespace PORequestApp

/-! ### Character classes (ASCII, mirroring the Python `re` classes used by app.py) -/

/-- Python `\s` on ASCII text. -/
def isPySpace (c : Char) : Bool :=
  c = ' ' || c = '\t' || c = '\n' || c = '\r' || c = '\x0b' || c = '\x0c'

def isDigitCh (c : Char) : Bool := '0' ≤ c && c ≤ '9'

def isAlphaCh (c : Char) : Bool := ('a' ≤ c && c ≤ 'z') || ('A' ≤ c && c ≤ 'Z')

def isAlnumCh (c : Char) : Bool := isAlphaCh c || isDigitCh c

/-- Python `\w` on ASCII text. -/
def isWordCh (c : Char) : Bool := isAlnumCh c || c = '_'

/-! ### `normalize_text_for_matching` (app.py lines 426-441)

`re.sub(r'\s+', ' ', text)` replaces each maximal whitespace run by a
single space; `re.sub(r'[^\w\s]', '', text)` drops every character that
is neither a word character nor whitespace; `.strip()` trims. -/

/-- `re.sub(r'\s+', ' ', ·)`: collapse each maximal whitespace run to one
space.  `inRun` records whether the scanner is inside a whitespace run whose
single `' '` has already been emitted. -/
def collapseWSAux (inRun : Bool) : List Char → List Char
  | [] => []
  | c :: cs =>
    if isPySpace c then
      (if inRun then collapseWSAux true cs else ' ' :: collapseWSAux true cs)
    else c :: collapseWSAux false cs

def collapseWS (l : List Char) : List Char := collapseWSAux false l

/-- Python `str.strip()` (ASCII whitespace). -/
def pyStrip (cs : List Char) : List Char :=
  ((cs.dropWhile isPySpace).reverse.dropWhile isPySpace).reverse

def keepWordOrSpace (c : Char) : Bool := isWordCh c || isPySpace c

def normCore (cs : List Char) : List Char :=
  pyStrip ((collapseWS (cs.map Char.toUpper)).filter keepWordOrSpace)

/-- app.py `normalize_text_for_matching` (uppercase, collapse whitespace,
drop non-word/non-space characters, strip). -/
def normalize_text_for_matching (s : String) : String := ⟨normCore s.data⟩

/-! ### `levenshtein_distance` (app.py lines 492-516)

The Python function builds the classic dynamic-programming rows:
`previous_row = range(len(s2)+1)` and, per character `c1` of `s1`, a
`current_row` starting with `i+1` whose further entries are
`min(previous_row[j+1]+1, current_row[j]+1, previous_row[j]+(c1!=c2))`;
it returns `previous_row[-1]`, after first swapping the arguments when
`len(s1) < len(s2)`. -/

/-- Python `min(a, b, c)`. -/
def min3 (a b c : Nat) : Nat := min (min a b) c

theorem min3_le_1 (a b c : Nat) : min3 a b c ≤ a :=
  le_trans (min_le_left (min a b) c) (min_le_left a b)

theorem min3_le_2 (a b c : Nat) : min3 a b c ≤ b :=
  le_trans (min_le_left (min a b) c) (min_le_right a b)

theorem min3_le_3 (a b c : Nat) : min3 a b c ≤ c := min_le_right (min a b) c

theorem le_min3 {x a b c : Nat} (h1 : x ≤ a) (h2 : x ≤ b) (h3 : x ≤ c) :
    x ≤ min3 a b c := le_min (le_min h1 h2) h3

theorem min3_add (a b c d : Nat) : min3 a b c + d = min3 (a + d) (b + d) (c + d) := by
  unfold min3; omega

/-- Transposition identity for a 3x3 grid of minima. -/
theorem min3_transpose (a b c d e f g h i : Nat) :
    min3 (min3 a b c) (min3 d e f) (min3 g h i)
      = min3 (min3 a d g) (min3 b e h) (min3 c f i) := by
  apply le_antisymm
  · exact le_min3
      (le_min3 ((min3_le_1 _ _ _).trans (min3_le_1 a b c))
        ((min3_le_2 _ _ _).trans (min3_le_1 d e f))
        ((min3_le_3 _ _ _).trans (min3_le_1 g h i)))
      (le_min3 ((min3_le_1 _ _ _).trans (min3_le_2 a b c))
        ((min3_le_2 _ _ _).trans (min3_le_2 d e f))
        ((min3_le_3 _ _ _).trans (min3_le_2 g h i)))
      (le_min3 ((min3_le_1 _ _ _).trans (min3_le_3 a b c))
        ((min3_le_2 _ _ _).trans (min3_le_3 d e f))
        ((min3_le_3 _ _ _).trans (min3_le_3 g h i)))
  · exact le_min3
      (le_min3 ((min3_le_1 _ _ _).trans (min3_le_1 a d g))
        ((min3_le_2 _ _ _).trans (min3_le_1 b e h))
        ((min3_le_3 _ _ _).trans (min3_le_1 c f i)))
      (le_min3 ((min3_le_1 _ _ _).trans (min3_le_2 a d g))
        ((min3_le_2 _ _ _).trans (min3_le_2 b e h))
        ((min3_le_3 _ _ _).trans (min3_le_2 c f i)))
      (le_min3 ((min3_le_1 _ _ _).trans (min3_le_3 a d g))
        ((min3_le_2 _ _ _).trans (min3_le_3 b e h))
        ((min3_le_3 _ _ _).trans (min3_le_3 c f i)))


/-- The inner `for j, c2 in enumerate(s2)` loop: one DP row, given the
remaining previous-row suffix and the last value written (`carry`). -/
def levRow (c1 : Char) : List Char → List Nat → Nat → List Nat
  | b :: t, pj :: prest, carry =>
      let v := min3 (prest.headD 0 + 1) (carry + 1)
                    (pj + (if c1 = b then 0 else 1))
      v :: levRow c1 t prest v
  | _, _, _ => []

/-- The outer `for i, c1 in enumerate(s1)` loop. -/
def levLoop (t : List Char) : List Char → Nat → List Nat → List Nat
  | [], _, prev => prev
  | c1 :: s1, i, prev => levLoop t s1 (i + 1) ((i + 1) :: levRow c1 t prev (i + 1))

def levCore (s1 t : List Char) : Nat :=
  if t.length = 0 then s1.length
  else (levLoop t s1 0 (List.range (t.length + 1))).getLastD 0

/-- app.py `levenshtein_distance` (with its initial argument swap). -/
def levenshtein_distance (s1 s2 : List Char) : Nat :=
  if s1.length < s2.length then levCore s2 s1 else levCore s1 s2

/-- Reference recursive definition of edit distance, used to reason
about the DP implementation. -/
def levrec : List Char → List Char → Nat
  | [], t => t.length
  | a :: s, [] => (a :: s).length
  | a :: s, b :: t =>
      min3 (levrec s (b :: t) + 1) (levrec (a :: s) t + 1)
           (levrec s t + (if a = b then 0 else 1))

@[simp] theorem levrec_nil_left (t : List Char) : levrec [] t = t.length := by
  cases t <;> simp [levrec]

@[simp] theorem levrec_nil_right (s : List Char) : levrec s [] = s.length := by
  cases s <;> simp [levrec]

theorem levrec_cons_cons (a b : Char) (s t : List Char) :
    levrec (a :: s) (b :: t) =
      min3 (levrec s (b :: t) + 1) (levrec (a :: s) t + 1)
           (levrec s t + (if a = b then 0 else 1)) := by
  simp [levrec]

theorem levRow_nil (c1 : Char) (prev : List Nat) (carry : Nat) :
    levRow c1 [] prev carry = [] := by cases prev <;> rfl

theorem levRow_cons (c1 b : Char) (t : List Char) (pj : Nat) (prest : List Nat) (carry : Nat) :
    levRow c1 (b :: t) (pj :: prest) carry =
      (min3 (prest.headD 0 + 1) (carry + 1) (pj + (if c1 = b then 0 else 1)))
        :: levRow c1 t prest
            (min3 (prest.headD 0 + 1) (carry + 1) (pj + (if c1 = b then 0 else 1))) := rfl

theorem levLoop_nil (t : List Char) (i : Nat) (prev : List Nat) :
    levLoop t [] i prev = prev := rfl

theorem levLoop_cons (t : List Char) (c1 : Char) (s1 : List Char) (i : Nat) (prev : List Nat) :
    levLoop t (c1 :: s1) i prev
      = levLoop t s1 (i + 1) ((i + 1) :: levRow c1 t prev (i + 1)) := rfl

/-- Peeling the last character of both strings: the recurrence the DP rows
implement.  Proved by strong induction on the total length; in every case
both sides reduce to the minimum of the same multiset of subterms. -/
theorem levrec_snoc_aux (a b : Char) :
    ∀ (n : Nat) (s t : List Char), s.length + t.length ≤ n →
      levrec (s ++ [a]) (t ++ [b]) =
        min3 (levrec s (t ++ [b]) + 1) (levrec (s ++ [a]) t + 1)
             (levrec s t + (if a = b then 0 else 1)) := by
  intro n
  induction n with
  | zero =>
      intro s t h
      have hs : s = [] := List.eq_nil_of_length_eq_zero (by omega)
      have ht : t = [] := List.eq_nil_of_length_eq_zero (by omega)
      subst hs; subst ht
      simp [levrec_cons_cons]
  | succ n IH =>
      intro s t h
      cases s with
      | nil =>
          cases t with
          | nil => simp [levrec_cons_cons]
          | cons u t' =>
              have h' : List.length ([] : List Char) + t'.length ≤ n := by
                simp at h ⊢; omega
              have IH0 := IH [] t' h'
              simp only [List.nil_append] at IH0
              simp only [List.nil_append, List.cons_append]
              rw [levrec_cons_cons a u [] (t' ++ [b]), IH0,
                  levrec_cons_cons a u [] t']
              simp only [levrec_nil_left, List.length_append, List.length_cons,
                List.length_nil]
              by_cases hab : a = b <;> by_cases hau : a = u <;>
                simp [min3, hab, hau] <;> omega
      | cons a' s' =>
          cases t with
          | nil =>
              have h' : s'.length + List.length ([] : List Char) ≤ n := by
                simp at h ⊢; omega
              have IH0 := IH s' [] h'
              simp only [List.nil_append] at IH0
              simp only [List.nil_append, List.cons_append]
              rw [levrec_cons_cons a' b (s' ++ [a]) [], IH0,
                  levrec_cons_cons a' b s' []]
              simp only [levrec_nil_right, List.length_append, List.length_cons,
                List.length_nil]
              by_cases hab : a = b <;> by_cases hab' : a' = b <;>
                simp [min3, hab, hab'] <;> omega
          | cons u t' =>
              have h1 : s'.length + (u :: t').length ≤ n := by
                simp at h ⊢; omega
              have h2 : (a' :: s').length + t'.length ≤ n := by
                simp at h ⊢; omega
              have h3 : s'.length + t'.length ≤ n := by
                simp at h ⊢; omega
              have IH1 := IH s' (u :: t') h1
              have IH2 := IH (a' :: s') t' h2
              have IH3 := IH s' t' h3
              simp only [List.cons_append] at IH1 IH2
              simp only [List.cons_append]
              rw [levrec_cons_cons a' u (s' ++ [a]) (t' ++ [b]), IH1, IH2, IH3,
                  levrec_cons_cons a' u s' (t' ++ [b]),
                  levrec_cons_cons a' u (s' ++ [a]) t',
                  levrec_cons_cons a' u s' t']
              simp only [min3_add]
              rw [min3_transpose]
              congr 1 <;> congr 1 <;> omega

theorem levrec_snoc (a b : Char) (s t : List Char) :
    levrec (s ++ [a]) (t ++ [b]) =
      min3 (levrec s (t ++ [b]) + 1) (levrec (s ++ [a]) t + 1)
           (levrec s t + (if a = b then 0 else 1)) :=
  levrec_snoc_aux a b (s.length + t.length) s t le_rfl

/-- Specification of one DP row: the distances from the prefix `p` to every
prefix of `u ++ v` that extends `u`. -/
def rowSpec (p : List Char) : List Char → List Char → List Nat
  | u, [] => [levrec p u]
  | u, b :: v => levrec p u :: rowSpec p (u ++ [b]) v

theorem rowSpec_headD (p u v : List Char) :
    (rowSpec p u v).headD 0 = levrec p u := by
  cases v <;> rfl

theorem rowSpec_cons_tail (p u v : List Char) :
    rowSpec p u v = levrec p u :: (rowSpec p u v).tail := by
  cases v <;> rfl

theorem rowSpec_getLastD (p : List Char) :
    ∀ (v u : List Char) (d : Nat), (rowSpec p u v).getLastD d = levrec p (u ++ v) := by
  intro v
  induction v with
  | nil => intro u d; simp [rowSpec]
  | cons b v' IHv =>
      intro u d
      show ((levrec p u :: rowSpec p (u ++ [b]) v').getLastD d) = _
      rw [List.getLastD_cons, IHv (u ++ [b]) (levrec p u), ← List.append_cons]

/-- The initial row `previous_row = range(len(s2)+1)` is the `rowSpec` of the
empty prefix. -/
theorem rowSpec_nil : ∀ (v u : List Char),
    rowSpec [] u v = List.range' u.length (v.length + 1) := by
  intro v
  induction v with
  | nil => intro u; simp [rowSpec]
  | cons b v' IHv =>
      intro u
      show levrec [] u :: rowSpec [] (u ++ [b]) v' = _
      rw [IHv (u ++ [b])]
      rw [List.length_cons, List.range'_succ u.length (v'.length + 1) 1]
      simp

/-- The inner DP loop maps the row for source prefix `p` to (the tail of)
the row for `p ++ [c1]`. -/
theorem levRow_spec (c1 : Char) :
    ∀ (v u p : List Char),
      levRow c1 v (rowSpec p u v) (levrec (p ++ [c1]) u)
        = (rowSpec (p ++ [c1]) u v).tail := by
  intro v
  induction v with
  | nil => intro u p; rw [show rowSpec p u [] = [levrec p u] from rfl, levRow_nil]; rfl
  | cons b v' IHv =>
      intro u p
      rw [show rowSpec p u (b :: v') = levrec p u :: rowSpec p (u ++ [b]) v' from rfl,
          levRow_cons, rowSpec_headD]
      have hval :
          min3 (levrec p (u ++ [b]) + 1) (levrec (p ++ [c1]) u + 1)
               (levrec p u + (if c1 = b then 0 else 1))
            = levrec (p ++ [c1]) (u ++ [b]) := (levrec_snoc c1 b p u).symm
      rw [hval, IHv (u ++ [b]) p]
      rw [show rowSpec (p ++ [c1]) u (b :: v')
            = levrec (p ++ [c1]) u :: rowSpec (p ++ [c1]) (u ++ [b]) v' from rfl,
          List.tail_cons]
      exact (rowSpec_cons_tail (p ++ [c1]) (u ++ [b]) v').symm

/-- The outer DP loop maps the row for prefix `p` to the row for `p ++ s1`. -/
theorem levLoop_spec (t : List Char) :
    ∀ (s1 p : List Char),
      levLoop t s1 p.length (rowSpec p [] t) = rowSpec (p ++ s1) [] t := by
  intro s1
  induction s1 with
  | nil => intro p; rw [levLoop_nil, List.append_nil]
  | cons c1 s1' IH =>
      intro p
      rw [levLoop_cons]
      have hcarry : p.length + 1 = levrec (p ++ [c1]) ([] : List Char) := by simp
      have hrow : (p.length + 1) :: levRow c1 t (rowSpec p [] t) (p.length + 1)
          = rowSpec (p ++ [c1]) [] t := by
        rw [hcarry, levRow_spec c1 t [] p, ← rowSpec_cons_tail]
      rw [hrow]
      have hlen : p.length + 1 = (p ++ [c1]).length := by simp
      rw [hlen, IH (p ++ [c1])]
      rw [List.append_assoc]
      rfl

theorem levCore_eq_levrec (s1 t : List Char) : levCore s1 t = levrec s1 t := by
  unfold levCore
  by_cases ht : t.length = 0
  · have h0 : t = [] := List.eq_nil_of_length_eq_zero ht
    subst h0; simp
  · rw [if_neg ht]
    have hinit : List.range (t.length + 1) = rowSpec [] [] t := by
      rw [rowSpec_nil t [], List.range_eq_range' (t.length + 1)]
      rfl
    have h0 : (0 : Nat) = List.length ([] : List Char) := rfl
    rw [hinit, h0, levLoop_spec t s1 [], List.nil_append, rowSpec_getLastD,
        List.nil_append]

/-- Symmetry of the reference edit distance. -/
theorem levrec_comm_aux :
    ∀ (n : Nat) (s t : List Char), s.length + t.length ≤ n →
      levrec s t = levrec t s := by
  intro n
  induction n with
  | zero =>
      intro s t h
      have hs : s = [] := List.eq_nil_of_length_eq_zero (by omega)
      have ht : t = [] := List.eq_nil_of_length_eq_zero (by omega)
      subst hs; subst ht; rfl
  | succ n IH =>
      intro s t h
      cases s with
      | nil => simp
      | cons a s' =>
          cases t with
          | nil => simp
          | cons b t' =>
              have h1 : s'.length + (b :: t').length ≤ n := by simp at h ⊢; omega
              have h2 : (a :: s').length + t'.length ≤ n := by simp at h ⊢; omega
              have h3 : s'.length + t'.length ≤ n := by simp at h ⊢; omega
              rw [levrec_cons_cons a b s' t', levrec_cons_cons b a t' s',
                  IH s' (b :: t') h1, IH (a :: s') t' h2, IH s' t' h3]
              have hc : (if b = a then (0 : Nat) else 1) = (if a = b then 0 else 1) := by
                by_cases hab : a = b
                · simp [hab]
                · rw [if_neg hab, if_neg (fun hh => hab hh.symm)]
              rw [hc]
              unfold min3
              omega

theorem levrec_comm (s t : List Char) : levrec s t = levrec t s :=
  levrec_comm_aux (s.length + t.length) s t le_rfl

theorem levenshtein_distance_eq (s t : List Char) :
    levenshtein_distance s t = levrec s t := by
  unfold levenshtein_distance
  split
  · rw [levCore_eq_levrec, levrec_comm]
  · rw [levCore_eq_levrec]

theorem levrec_le_max_aux :
    ∀ (n : Nat) (s t : List Char), s.length + t.length ≤ n →
      levrec s t ≤ max s.length t.length := by
  intro n
  induction n with
  | zero =>
      intro s t h
      have hs : s = [] := List.eq_nil_of_length_eq_zero (by omega)
      have ht : t = [] := List.eq_nil_of_length_eq_zero (by omega)
      subst hs; subst ht; simp
  | succ n IH =>
      intro s t h
      cases s with
      | nil => simp
      | cons a s' =>
          cases t with
          | nil => simp
          | cons b t' =>
              have h3 : s'.length + t'.length ≤ n := by simp at h ⊢; omega
              have IH3 := IH s' t' h3
              rw [levrec_cons_cons a b s' t']
              simp only [List.length_cons]
              have hite : (if a = b then (0 : Nat) else 1) ≤ 1 := by
                by_cases hab : a = b <;> simp [hab]
              unfold min3
              omega

theorem levrec_le_max (s t : List Char) :
    levrec s t ≤ max s.length t.length :=
  levrec_le_max_aux (s.length + t.length) s t le_rfl

/-! ### `fuzzy_match_score` (app.py lines 444-489) -/

theorem levenshtein_distance_comm (s t : List Char) :
    levenshtein_distance s t = levenshtein_distance t s := by
  rw [levenshtein_distance_eq, levenshtein_distance_eq, levrec_comm]

/-- Python `str.replace(' ', '')`. -/
def removeSpaces (cs : List Char) : List Char := cs.filter (fun c => !(c = ' '))

/-- app.py `fuzzy_match_score`: similarity score in `[0, 1]`; the float
constants 1.0, 0.98 and the arithmetic are modelled exactly in `ℚ`.
`t1`/`t2` are the normalized inputs; `t1ns`/`t2ns` the space-free forms;
`longer`/`shorter` are selected by `len(t1_no_space) >= len(t2_no_space)`.
The source's `max(0.0, 1.0 - distance / max_len)` is written as the exact
rational `max 0 ((max_len - distance) / max_len)`; the two are equal
because the preceding branch has already returned 0 when `max_len = 0`. -/
def fuzzy_match_score (text1 text2 : String) : ℚ :=
  if text1 = "" ∨ text2 = "" then 0
  else if normCore text1.data = [] ∨ normCore text2.data = [] then 0
  else if normCore text1.data = normCore text2.data then 1
  else if removeSpaces (normCore text1.data) = removeSpaces (normCore text2.data) then
    mkRat 98 100
  else if (if (removeSpaces (normCore text2.data)).length
              ≤ (removeSpaces (normCore text1.data)).length
           then removeSpaces (normCore text1.data)
           else removeSpaces (normCore text2.data)).length = 0 then 0
  else
    max 0 (mkRat
      (((if (removeSpaces (normCore text2.data)).length
              ≤ (removeSpaces (normCore text1.data)).length
          then removeSpaces (normCore text1.data)
          else removeSpaces (normCore text2.data)).length : Int)
        - ((levenshtein_distance
            (if (removeSpaces (normCore text2.data)).length
                ≤ (removeSpaces (normCore text1.data)).length
             then removeSpaces (normCore text2.data)
             else removeSpaces (normCore text1.data))
            (if (removeSpaces (normCore text2.data)).length
                ≤ (removeSpaces (normCore text1.data)).length
             then removeSpaces (normCore text1.data)
             else removeSpaces (normCore text2.data)) : Int)))
      (if (removeSpaces (normCore text2.data)).length
          ≤ (removeSpaces (normCore text1.data)).length
       then removeSpaces (normCore text1.data)
       else removeSpaces (normCore text2.data)).length)

theorem max_mkRat_le_one (d n : Nat) :
    max 0 (mkRat ((n : Int) - (d : Int)) n) ≤ 1 := by
  refine max_le (by norm_num) ?_
  rw [Rat.mkRat_eq_div]
  apply div_le_one_of_le₀
  · push_cast
    have : (0 : ℚ) ≤ (d : ℚ) := Nat.cast_nonneg d
    linarith
  · positivity

theorem fuzzy_match_score_nonneg (a b : String) : 0 ≤ fuzzy_match_score a b := by
  unfold fuzzy_match_score
  repeat' split
  all_goals first
    | norm_num
    | exact le_max_left 0 _

theorem fuzzy_match_score_le_one (a b : String) : fuzzy_match_score a b ≤ 1 := by
  unfold fuzzy_match_score
  repeat' split
  all_goals first
    | exact max_mkRat_le_one _ _
    | norm_num

theorem fuzzy_match_score_comm (a b : String) :
    fuzzy_match_score a b = fuzzy_match_score b a := by
  unfold fuzzy_match_score
  by_cases h1 : a = "" ∨ b = ""
  · have h1' : b = "" ∨ a = "" := Or.symm h1
    rw [if_pos h1, if_pos h1']
  · have h1' : ¬(b = "" ∨ a = "") := fun hh => h1 (Or.symm hh)
    rw [if_neg h1, if_neg h1']
    by_cases h2 : normCore a.data = [] ∨ normCore b.data = []
    · have h2' : normCore b.data = [] ∨ normCore a.data = [] := Or.symm h2
      rw [if_pos h2, if_pos h2']
    · have h2' : ¬(normCore b.data = [] ∨ normCore a.data = []) := fun hh => h2 (Or.symm hh)
      rw [if_neg h2, if_neg h2']
      by_cases h3 : normCore a.data = normCore b.data
      · have h3' : normCore b.data = normCore a.data := h3.symm
        rw [if_pos h3, if_pos h3']
      · have h3' : ¬ normCore b.data = normCore a.data := fun hh => h3 hh.symm
        rw [if_neg h3, if_neg h3']
        by_cases h4 : removeSpaces (normCore a.data) = removeSpaces (normCore b.data)
        · have h4' : removeSpaces (normCore b.data) = removeSpaces (normCore a.data) := h4.symm
          rw [if_pos h4, if_pos h4']
        · have h4' : ¬ removeSpaces (normCore b.data) = removeSpaces (normCore a.data) :=
            fun hh => h4 hh.symm
          rw [if_neg h4, if_neg h4']
          by_cases h5 : (removeSpaces (normCore b.data)).length
              ≤ (removeSpaces (normCore a.data)).length
          · by_cases h6 : (removeSpaces (normCore a.data)).length
                ≤ (removeSpaces (normCore b.data)).length
            · have hlen : (removeSpaces (normCore a.data)).length
                  = (removeSpaces (normCore b.data)).length := le_antisymm h6 h5
              simp only [if_pos h5, if_pos h6]
              rw [levenshtein_distance_comm (removeSpaces (normCore b.data))
                    (removeSpaces (normCore a.data)), hlen]
            · simp only [if_pos h5, if_neg h6]
          · have h6 : (removeSpaces (normCore a.data)).length
                ≤ (removeSpaces (normCore b.data)).length := by omega
            simp only [if_neg h5, if_pos h6]

theorem normCore_nil : normCore [] = [] := rfl

theorem fuzzy_match_score_self (a : String) (h : normalize_text_for_matching a ≠ "") :
    fuzzy_match_score a a = 1 := by
  have hnc : normCore a.data ≠ [] := by
    intro hh
    apply h
    show String.mk (normCore a.data) = String.mk []
    rw [hh]
  have ha : a ≠ "" := by
    intro hh
    subst hh
    exact hnc normCore_nil
  unfold fuzzy_match_score
  rw [if_neg (by simp [ha]), if_neg (by simp [hnc]), if_pos rfl]

/-! ### Structure of `normalize_text_for_matching` output (for the
idempotence analysis of the spec) -/

/-- "The first character, if any, is not whitespace." -/
def headNotSpace (l : List Char) : Prop :=
  ∀ c, l.head? = some c → isPySpace c = false

theorem headNotSpace_nil : headNotSpace [] := by
  intro c h; cases h

theorem headNotSpace_cons {c : Char} {cs : List Char} (h : isPySpace c = false) :
    headNotSpace (c :: cs) := by
  intro d hd
  rw [List.head?_cons, Option.some_inj] at hd
  exact hd ▸ h

theorem headNotSpace_dropWhile (l : List Char) :
    headNotSpace (l.dropWhile isPySpace) := by
  induction l with
  | nil => simpa using headNotSpace_nil
  | cons c cs ih =>
      by_cases h : isPySpace c = true
      · rw [List.dropWhile_cons_of_pos h]; exact ih
      · rw [List.dropWhile_cons_of_neg h]
        exact headNotSpace_cons (by simpa using h)

theorem dropWhile_eq_self_of_headNotSpace {l : List Char} (h : headNotSpace l) :
    l.dropWhile isPySpace = l := by
  cases l with
  | nil => rfl
  | cons c cs =>
      have hc : isPySpace c = false := h c rfl
      rw [List.dropWhile_cons_of_neg (by simp [hc])]

theorem headNotSpace_collapseWSAux_true (l : List Char) :
    headNotSpace (collapseWSAux true l) := by
  induction l with
  | nil => exact headNotSpace_nil
  | cons c cs ih =>
      by_cases h : isPySpace c = true
      · rw [collapseWSAux, if_pos h, if_pos rfl]; exact ih
      · rw [collapseWSAux, if_neg h]
        exact headNotSpace_cons (by simpa using h)

theorem collapseWSAux_idem (l : List Char) :
    collapseWSAux false (collapseWSAux false l) = collapseWSAux false l ∧
    collapseWSAux true (collapseWSAux true l) = collapseWSAux true l := by
  induction l with
  | nil => exact ⟨rfl, rfl⟩
  | cons c cs ih =>
      by_cases h : isPySpace c = true
      · constructor
        · rw [collapseWSAux, if_pos h, if_neg (by simp)]
          rw [collapseWSAux, if_pos (by decide), if_neg (by simp), ih.2]
        · rw [collapseWSAux, if_pos h, if_pos rfl, ih.2]
      · constructor
        · rw [collapseWSAux, if_neg h, collapseWSAux, if_neg h, ih.1]
        · rw [collapseWSAux, if_neg h, collapseWSAux, if_neg h, ih.1]

theorem collapseWS_idem (l : List Char) : collapseWS (collapseWS l) = collapseWS l :=
  (collapseWSAux_idem l).1

theorem mem_collapseWSAux {l : List Char} :
    ∀ (b : Bool), ∀ c ∈ collapseWSAux b l, c = ' ' ∨ (c ∈ l ∧ isPySpace c = false) := by
  induction l with
  | nil => intro b c hc; cases hc
  | cons c cs ih =>
      intro b d hd
      by_cases h : isPySpace c = true
      · rw [collapseWSAux, if_pos h] at hd
        have hd' : d ∈ collapseWSAux true cs ∨ d = ' ' := by
          cases b with
          | true => rw [if_pos rfl] at hd; exact Or.inl hd
          | false =>
              rw [if_neg (by simp)] at hd
              rcases List.mem_cons.mp hd with h1 | h1
              · exact Or.inr h1
              · exact Or.inl h1
        rcases hd' with h1 | h1
        · rcases ih true d h1 with h2 | h2
          · exact Or.inl h2
          · exact Or.inr ⟨List.mem_cons_of_mem c h2.1, h2.2⟩
        · exact Or.inl h1
      · rw [collapseWSAux, if_neg h] at hd
        rcases List.mem_cons.mp hd with h1 | h1
        · exact Or.inr ⟨by rw [h1]; exact List.mem_cons_self c cs, by rw [h1]; simpa using h⟩
        · rcases ih false d h1 with h2 | h2
          · exact Or.inl h2
          · exact Or.inr ⟨List.mem_cons_of_mem c h2.1, h2.2⟩

theorem mem_collapseWS {l : List Char} :
    ∀ c ∈ collapseWS l, c = ' ' ∨ (c ∈ l ∧ isPySpace c = false) :=
  mem_collapseWSAux false

/-- Shape of `collapseWS` output: every whitespace character is the single
`' '` that opens its run. -/
def Collapsed : List Char → Prop
  | [] => True
  | c :: cs => (isPySpace c = true → c = ' ' ∧ headNotSpace cs) ∧ Collapsed cs

theorem headNotSpace_append_left {a b : List Char} (h : headNotSpace (a ++ b)) :
    headNotSpace a := by
  cases a with
  | nil => exact headNotSpace_nil
  | cons d ds => exact headNotSpace_cons (h d rfl)

theorem collapsed_collapseWSAux (l : List Char) :
    Collapsed (collapseWSAux false l) ∧ Collapsed (collapseWSAux true l) := by
  induction l with
  | nil => exact ⟨trivial, trivial⟩
  | cons c cs ih =>
      by_cases h : isPySpace c = true
      · constructor
        · rw [collapseWSAux, if_pos h, if_neg (by simp)]
          exact ⟨fun _ => ⟨rfl, headNotSpace_collapseWSAux_true cs⟩, ih.2⟩
        · rw [collapseWSAux, if_pos h, if_pos rfl]
          exact ih.2
      · constructor
        · rw [collapseWSAux, if_neg h]
          exact ⟨fun hsp => absurd hsp h, ih.1⟩
        · rw [collapseWSAux, if_neg h]
          exact ⟨fun hsp => absurd hsp h, ih.1⟩

theorem collapsed_collapseWS (l : List Char) : Collapsed (collapseWS l) :=
  (collapsed_collapseWSAux l).1

theorem collapseWSAux_eq_self (l : List Char) :
    (Collapsed l → collapseWSAux false l = l) ∧
    (Collapsed l → headNotSpace l → collapseWSAux true l = l) := by
  induction l with
  | nil => exact ⟨fun _ => rfl, fun _ _ => rfl⟩
  | cons c cs ih =>
      constructor
      · intro hc
        by_cases h : isPySpace c = true
        · obtain ⟨hceq, hhns⟩ := hc.1 h
          rw [collapseWSAux, if_pos h, if_neg (by simp), ih.2 hc.2 hhns, hceq]
        · rw [collapseWSAux, if_neg h, ih.1 hc.2]
      · intro hc hh
        have h : isPySpace c = false := hh c rfl
        rw [collapseWSAux, if_neg (by simp [h]), ih.1 hc.2]

theorem collapseWS_eq_self_of_collapsed {l : List Char} (h : Collapsed l) :
    collapseWS l = l := (collapseWSAux_eq_self l).1 h

theorem collapsed_append_left {a b : List Char} (h : Collapsed (a ++ b)) :
    Collapsed a := by
  induction a with
  | nil => trivial
  | cons c rest ih =>
      rw [List.cons_append] at h
      exact ⟨fun hsp => ⟨(h.1 hsp).1, headNotSpace_append_left (h.1 hsp).2⟩, ih h.2⟩

theorem collapsed_dropWhile {l : List Char} (h : Collapsed l) :
    Collapsed (l.dropWhile isPySpace) := by
  induction l with
  | nil => trivial
  | cons c cs ih =>
      by_cases hc : isPySpace c = true
      · rw [List.dropWhile_cons_of_pos hc]; exact ih h.2
      · rw [List.dropWhile_cons_of_neg hc]; exact h

theorem collapsed_of_prefix {l m : List Char} (h : l <+: m) (hm : Collapsed m) :
    Collapsed l := by
  obtain ⟨t, rfl⟩ := h
  exact collapsed_append_left hm

theorem headNotSpace_of_prefix {l m : List Char} (h : l <+: m) (hm : headNotSpace m) :
    headNotSpace l := by
  obtain ⟨t, rfl⟩ := h
  exact headNotSpace_append_left hm

theorem prefix_of_pyStrip (l : List Char) : pyStrip l <+: l.dropWhile isPySpace := by
  unfold pyStrip
  have hsuf : ((l.dropWhile isPySpace).reverse.dropWhile isPySpace)
      <:+ (l.dropWhile isPySpace).reverse := List.dropWhile_suffix isPySpace
  have hpre := List.reverse_prefix.mpr hsuf
  rwa [List.reverse_reverse] at hpre

theorem pyStrip_headNotSpace (l : List Char) : headNotSpace (pyStrip l) :=
  headNotSpace_of_prefix (prefix_of_pyStrip l) (headNotSpace_dropWhile l)

theorem pyStrip_reverse_headNotSpace (l : List Char) :
    headNotSpace (pyStrip l).reverse := by
  unfold pyStrip
  rw [List.reverse_reverse]
  exact headNotSpace_dropWhile _

theorem pyStrip_eq_self {l : List Char} (h1 : headNotSpace l)
    (h2 : headNotSpace l.reverse) : pyStrip l = l := by
  unfold pyStrip
  rw [dropWhile_eq_self_of_headNotSpace h1, dropWhile_eq_self_of_headNotSpace h2,
      List.reverse_reverse]

theorem pyStrip_idem (l : List Char) : pyStrip (pyStrip l) = pyStrip l :=
  pyStrip_eq_self (pyStrip_headNotSpace l) (pyStrip_reverse_headNotSpace l)

theorem collapsed_pyStrip {l : List Char} (h : Collapsed l) :
    Collapsed (pyStrip l) :=
  collapsed_of_prefix (prefix_of_pyStrip l) (collapsed_dropWhile h)

theorem pyStrip_subset {l : List Char} : ∀ c ∈ pyStrip l, c ∈ l := by
  intro c hc
  unfold pyStrip at hc
  rw [List.mem_reverse] at hc
  have h1 := List.dropWhile_subset isPySpace hc
  rw [List.mem_reverse] at h1
  exact List.dropWhile_subset isPySpace h1

/-! ### `Char.toUpper` is idempotent (Python `str.upper` on ASCII) -/

theorem toUpper_def (c : Char) :
    c.toUpper = if c.toNat ≥ 97 ∧ c.toNat ≤ 122 then Char.ofNat (c.toNat - 32) else c := rfl

theorem toUpper_toNat (c : Char) (h : c.toNat ≥ 97 ∧ c.toNat ≤ 122) :
    (Char.ofNat (c.toNat - 32)).toNat = c.toNat - 32 := by
  have hv : (c.toNat - 32).isValidChar := Or.inl (by omega)
  unfold Char.ofNat
  rw [dif_pos hv]
  rfl

theorem toUpper_idem (c : Char) : c.toUpper.toUpper = c.toUpper := by
  by_cases h : c.toNat ≥ 97 ∧ c.toNat ≤ 122
  · rw [toUpper_def c, if_pos h, toUpper_def, if_neg]
    rw [toUpper_toNat c h]
    omega
  · rw [toUpper_def c, if_neg h, toUpper_def, if_neg h]

/-- Characters that can occur in `normCore` output: fixed by `toUpper` and
kept by the `[^\w\s]` filter. -/
def NormForm (l : List Char) : Prop :=
  ∀ c ∈ l, Char.toUpper c = c ∧ keepWordOrSpace c = true

theorem normForm_normCore (x : List Char) : NormForm (normCore x) := by
  intro c hc
  unfold normCore at hc
  have hc1 := pyStrip_subset c hc
  have hc2 := List.mem_filter.mp hc1
  refine ⟨?_, hc2.2⟩
  rcases mem_collapseWS c hc2.1 with h1 | h1
  · rw [h1]; decide
  · rcases List.mem_map.mp h1.1 with ⟨d, _, rfl⟩
    exact toUpper_idem d

theorem normCore_of_normForm {l : List Char} (h : NormForm l) :
    normCore l = pyStrip (collapseWS l) := by
  unfold normCore
  have hmap : l.map Char.toUpper = l := by
    have := List.map_congr_left (l := l) (f := Char.toUpper) (g := id)
      (fun c hc => (h c hc).1)
    rw [this, List.map_id]
  rw [hmap]
  have hfilter : (collapseWS l).filter keepWordOrSpace = collapseWS l := by
    refine List.filter_eq_self.mpr (fun c hc => ?_)
    rcases mem_collapseWS c hc with h1 | h1
    · rw [h1]; decide
    · exact (h c h1.1).2
  rw [hfilter]

theorem normForm_strip_collapse {l : List Char} (h : NormForm l) :
    NormForm (pyStrip (collapseWS l)) := by
  intro c hc
  have hc1 := pyStrip_subset c hc
  rcases mem_collapseWS c hc1 with h1 | h1
  · rw [h1]; exact ⟨by decide, by decide⟩
  · exact h c h1.1

/-- The second application of `normalize` is a fixed point: applying it a
third time changes nothing. -/
theorem normCore_three (x : List Char) :
    normCore (normCore (normCore x)) = normCore (normCore x) := by
  have hy : NormForm (normCore x) := normForm_normCore x
  have h2 : normCore (normCore x) = pyStrip (collapseWS (normCore x)) :=
    normCore_of_normForm hy
  have hz : NormForm (pyStrip (collapseWS (normCore x))) := normForm_strip_collapse hy
  have hcolz : Collapsed (pyStrip (collapseWS (normCore x))) :=
    collapsed_pyStrip (collapsed_collapseWS (normCore x))
  rw [h2, normCore_of_normForm hz, collapseWS_eq_self_of_collapsed hcolz, pyStrip_idem]

/-! ### String-scanning utilities

Python `re` searches are translated pattern-by-pattern into deterministic
scanners over `List Char`.  `re.search` tries the pattern at each start
position from the left; `re.finditer` yields non-overlapping matches,
resuming at each match end.  A scanner receives the previous character
(for `\b` word boundaries) and the remaining input. -/

/-- Case-insensitive character comparison (`re.IGNORECASE`, ASCII). -/
def chEqCI (a b : Char) : Bool := a.toLower = b.toLower

def isAlnumHyphen (c : Char) : Bool := isAlnumCh c || c = '-'

def isDigitComma (c : Char) : Bool := isDigitCh c || c = ','

/-- Match a literal case-insensitively; return the remaining input. -/
def matchLitCI : List Char → List Char → Option (List Char)
  | [], cs => some cs
  | _ :: _, [] => none
  | p :: ps, c :: cs => if chEqCI p c then matchLitCI ps cs else none

/-- Greedy `p*`: drop a maximal run. -/
def skipWS (cs : List Char) : List Char := cs.dropWhile isPySpace

/-- Greedy `[:\s]*`. -/
def skipWSColon (cs : List Char) : List Char :=
  cs.dropWhile (fun c => isPySpace c || c = ':')

/-- Optional single character (regex `c?`). -/
def optCh (c : Char) : List Char → List Char
  | [] => []
  | d :: cs => if d = c then cs else d :: cs

/-- Greedy `p{k,}`: maximal run with at least `k` characters. -/
def munchAtLeast (p : Char → Bool) (k : Nat) (cs : List Char) :
    Option (List Char × List Char) :=
  let t := cs.takeWhile p
  if k ≤ t.length then some (t, cs.dropWhile p) else none

/-- `re.search` driver: leftmost position where the scanner matches. -/
def searchFrom {α : Type} (f : Option Char → List Char → Option α) :
    Option Char → List Char → Option α
  | prev, [] => f prev []
  | prev, c :: cs =>
      match f prev (c :: cs) with
      | some r => some r
      | none => searchFrom f (some c) cs

def reSearch {α : Type} (f : Option Char → List Char → Option α)
    (cs : List Char) : Option α :=
  searchFrom f none cs

/-- Leftmost match position (`re.search(...).start()`). -/
def searchIdxFrom (f : Option Char → List Char → Bool) :
    Nat → Option Char → List Char → Option Nat
  | i, prev, [] => if f prev [] then some i else none
  | i, prev, c :: cs => if f prev (c :: cs) then some i else searchIdxFrom f (i + 1) (some c) cs

def reSearchIdx (f : Option Char → List Char → Bool) (cs : List Char) : Option Nat :=
  searchIdxFrom f 0 none cs

/-- `re.finditer`: all non-overlapping matches, scanning left to right; a
match hands back its capture, the last character it consumed, and the rest
of the input.  The fuel is the input length (every step consumes at least
one character). -/
def finditerAux {α : Type} (f : Option Char → List Char → Option (α × Option Char × List Char)) :
    Nat → Option Char → List Char → List α
  | 0, _, _ => []
  | _ + 1, _, [] => []
  | fuel + 1, prev, c :: cs =>
      match f prev (c :: cs) with
      | some (a, prev2, rest) => a :: finditerAux f fuel prev2 rest
      | none => finditerAux f fuel (some c) cs

def reFindIter {α : Type} (f : Option Char → List Char → Option (α × Option Char × List Char))
    (cs : List Char) : List α :=
  finditerAux f cs.length none cs

/-- Python `str.find`: index of the leftmost occurrence, or `-1`. -/
def strFindAux (needle : List Char) : Nat → List Char → Option Nat
  | i, [] => if needle.isEmpty then some i else none
  | i, c :: cs => if needle.isPrefixOf (c :: cs) then some i else strFindAux needle (i + 1) cs

def pyFind (needle hay : List Char) : Int :=
  match strFindAux needle 0 hay with
  | some i => (i : Int)
  | none => -1

/-- Python `needle in hay`. -/
def containsSub (needle hay : List Char) : Bool :=
  (strFindAux needle 0 hay).isSome

/-- Python `str.split()` (split on whitespace runs, dropping empties). -/
def pySplitWSAux (acc : List Char) : List Char → List (List Char)
  | [] => if acc.isEmpty then [] else [acc.reverse]
  | c :: cs =>
      if isPySpace c then
        (if acc.isEmpty then pySplitWSAux [] cs else acc.reverse :: pySplitWSAux [] cs)
      else pySplitWSAux (c :: acc) cs

def pySplitWS (cs : List Char) : List (List Char) := pySplitWSAux [] cs

/-- Python `str.split(sep)` for a single-character separator (keeps empties). -/
def splitOnCharAux (sep : Char) (acc : List Char) : List Char → List (List Char)
  | [] => [acc.reverse]
  | c :: cs =>
      if c = sep then acc.reverse :: splitOnCharAux sep [] cs
      else splitOnCharAux sep (c :: acc) cs

def splitOnChar (sep : Char) (cs : List Char) : List (List Char) :=
  splitOnCharAux sep [] cs

/-- Python `line.split(':', 1)` when a colon is present. -/
def splitFirstColonAux (acc : List Char) : List Char → Option (List Char × List Char)
  | [] => none
  | c :: cs => if c = ':' then some (acc.reverse, cs) else splitFirstColonAux (c :: acc) cs

def splitFirstColon (cs : List Char) : Option (List Char × List Char) :=
  splitFirstColonAux [] cs

/-- Python slice `text[a:b]` for `0 ≤ a ≤ b` (clamped). -/
def pySlice (cs : List Char) (a b : Nat) : List Char := (cs.drop a).take (b - a)

/-- Digit-string value. -/
def digitsVal (ds : List Char) : Nat :=
  ds.foldl (fun a c => a * 10 + (c.toNat - '0'.toNat)) 0

/-- Python `int(s)` on ASCII decimal strings (optional sign, surrounding
whitespace); underscore digit grouping and non-ASCII digits are not
modelled. -/
def pyInt (s : List Char) : Option Int :=
  let t := pyStrip s
  match t with
  | '+' :: ds => if ds ≠ [] ∧ ds.all isDigitCh then some (digitsVal ds : Int) else none
  | '-' :: ds => if ds ≠ [] ∧ ds.all isDigitCh then some (-(digitsVal ds : Int)) else none
  | ds => if ds ≠ [] ∧ ds.all isDigitCh then some (digitsVal ds : Int) else none

def digitCh (d : Nat) : Char := Char.ofNat ('0'.toNat + d)

/-- Decimal representation of a `Nat` (Python `str`).  Structural via fuel. -/
def natDigitsAux : Nat → Nat → List Char
  | 0, _ => []
  | fuel + 1, n => if n < 10 then [digitCh n] else natDigitsAux fuel (n / 10) ++ [digitCh (n % 10)]

def natDigits (n : Nat) : List Char := natDigitsAux (n + 1) n

def padZeros (w : Nat) (ds : List Char) : List Char :=
  List.replicate (w - ds.length) '0' ++ ds

/-- Python `f"{n:04d}"`. -/
def pyFormat04d (n : Int) : List Char :=
  if n < 0 then '-' :: padZeros 3 (natDigits n.natAbs) else padZeros 4 (natDigits n.natAbs)

/-- app.py `format_po_number` (lines 416-420): `S`-prefixed zero-padded id
for Service jobs, plain zero-padded id otherwise. -/
def format_po_number (po_id : Int) (job_name : String) : List Char :=
  if job_name.data ≠ [] ∧ job_name.data.map Char.toLower = "service".data then
    'S' :: pyFormat04d po_id
  else pyFormat04d po_id

/-- Python `str(n)` for an `Int`. -/
def intStr (n : Int) : List Char :=
  if n < 0 then '-' :: natDigits n.natAbs else natDigits n.natAbs

/-- Exact-decimal model of `f"{float(s):.2f}"` applied to a cents value. -/
def fmtCents (cents : Nat) : List Char :=
  natDigits (cents / 100) ++ '.' :: padZeros 2 (natDigits (cents % 100))

/-! ### Invoice Number Detector (app.py lines 2217-2273)

Primary patterns: `CUSTOMER\s*#\s*INVOICE\s*#[\s\S]*?(\d{5,}[A-Z0-9\-]*)`
and `INVOICE\s*#[\s:]*(\d{5,}[A-Z0-9\-]*)`; then thirteen fallback
`label ... ([A-Z0-9\-]+)` patterns, all with `re.IGNORECASE`. -/

/-- `[\s\S]*?(\d{5,}[A-Z0-9\-]*)`: lazily find the first position where a
run of at least five digits starts; the capture is that maximal digit run
and the following `[A-Z0-9\-]*` run. -/
def lazyDigits5 : List Char → Option (List Char)
  | [] => none
  | c :: cs =>
      match munchAtLeast isDigitCh 5 (c :: cs) with
      | some (ds, r) => some (ds ++ r.takeWhile isAlnumHyphen)
      | none => lazyDigits5 cs

/-- `CUSTOMER\s*#\s*INVOICE\s*#[\s\S]*?(\d{5,}[A-Z0-9\-]*)` at one position. -/
def tryCustomerInvoice (cs : List Char) : Option (List Char) :=
  (matchLitCI "CUSTOMER".data cs).bind fun r1 =>
    match skipWS r1 with
    | '#' :: r2 =>
        (matchLitCI "INVOICE".data (skipWS r2)).bind fun r3 =>
          match skipWS r3 with
          | '#' :: r4 => lazyDigits5 r4
          | _ => none
    | _ => none

/-- `INVOICE\s*#[\s:]*(\d{5,}[A-Z0-9\-]*)` at one position. -/
def tryInvoiceHash5 (cs : List Char) : Option (List Char) :=
  (matchLitCI "INVOICE".data cs).bind fun r1 =>
    match skipWS r1 with
    | '#' :: r2 =>
        match munchAtLeast isDigitCh 5 (skipWSColon r2) with
        | some (ds, r) => some (ds ++ r.takeWhile isAlnumHyphen)
        | none => none
    | _ => none

/-- Capture `([A-Z0-9\-]+)` (greedy, at least one character). -/
def capAlnumHyphen (cs : List Char) : Option (List Char) :=
  match munchAtLeast isAlnumHyphen 1 cs with
  | some (t, _) => some t
  | none => none

/-- `<lit>\s*#\s*:?\s*([A-Z0-9\-]+)`  (Invoice # / Order # fallbacks). -/
def tryLitHashColonCap (lit : String) (cs : List Char) : Option (List Char) :=
  (matchLitCI lit.data cs).bind fun r1 =>
    match skipWS r1 with
    | '#' :: r2 => capAlnumHyphen (skipWS (optCh ':' (skipWS r2)))
    | _ => none

/-- `<lit>\s*(?:NO|NUM|NUMBER)\s*[:\s]*([A-Z0-9\-]+)` with regex alternation
order (`NO` first, backtracking to `NUM` then `NUMBER`). -/
def tryLitNoNumNumberCap (lit : String) (cs : List Char) : Option (List Char) :=
  (matchLitCI lit.data cs).bind fun r1 =>
    let r2 := skipWS r1
    let tail := fun (r : List Char) => capAlnumHyphen (skipWSColon (skipWS r))
    match (matchLitCI "NO".data r2).bind tail with
    | some t => some t
    | none =>
        match (matchLitCI "NUM".data r2).bind tail with
        | some t => some t
        | none => (matchLitCI "NUMBER".data r2).bind tail

/-- `Invoice\s+No\s*[:\s]*([A-Z0-9\-]+)`. -/
def tryInvoiceNoCap (cs : List Char) : Option (List Char) :=
  (matchLitCI "Invoice".data cs).bind fun r1 =>
    (munchAtLeast isPySpace 1 r1).bind fun (_, r2) =>
      (matchLitCI "No".data r2).bind fun r3 =>
        capAlnumHyphen (skipWSColon (skipWS r3))

/-- `<lit>\s*(?:NO|NUM|NUMBER)\s*:?\s*([A-Z0-9\-]+)` (Order No/Num). -/
def tryLitNoNumNumberColonCap (lit : String) (cs : List Char) : Option (List Char) :=
  (matchLitCI lit.data cs).bind fun r1 =>
    let r2 := skipWS r1
    let tail := fun (r : List Char) => capAlnumHyphen (skipWS (optCh ':' (skipWS r)))
    match (matchLitCI "NO".data r2).bind tail with
    | some t => some t
    | none =>
        match (matchLitCI "NUM".data r2).bind tail with
        | some t => some t
        | none => (matchLitCI "NUMBER".data r2).bind tail

/-- `<w1>\s*<w2>\s*#?\s*:?\s*([A-Z0-9\-]+)` (Sales Order / Work Order). -/
def tryTwoWordsCap (w1 w2 : String) (cs : List Char) : Option (List Char) :=
  (matchLitCI w1.data cs).bind fun r1 =>
    (matchLitCI w2.data (skipWS r1)).bind fun r2 =>
      capAlnumHyphen (skipWS (optCh ':' (skipWS (optCh '#' (skipWS r2)))))

/-- `<lit>\s*#?\s*:?\s*([A-Z0-9\-]+)` (Reference/Ticket/Document/...). -/
def tryLitOptHashColonCap (lit : String) (cs : List Char) : Option (List Char) :=
  (matchLitCI lit.data cs).bind fun r1 =>
    capAlnumHyphen (skipWS (optCh ':' (skipWS (optCh '#' (skipWS r1)))))

/-- `Transaction\s*(?:ID|#)?\s*[:\s]*([A-Z0-9\-]+)` with alternation order
`ID`, `#`, empty. -/
def tryTransactionCap (cs : List Char) : Option (List Char) :=
  (matchLitCI "Transaction".data cs).bind fun r1 =>
    let r2 := skipWS r1
    let tail := fun (r : List Char) => capAlnumHyphen (skipWSColon (skipWS r))
    match (matchLitCI "ID".data r2).bind tail with
    | some t => some t
    | none =>
        match r2 with
        | '#' :: r3 =>
            match tail r3 with
            | some t => some t
            | none => tail r2
        | _ => tail r2

/-- The two primary invoice-number patterns, in source order. -/
def primaryInvoicePatterns : List (List Char → Option (List Char)) :=
  [tryCustomerInvoice, tryInvoiceHash5]

/-- The thirteen fallback `order_patterns`, in source order. -/
def orderPatterns : List (List Char → Option (List Char)) :=
  [ tryLitHashColonCap "INVOICE"
  , tryLitNoNumNumberCap "INVOICE"
  , tryInvoiceNoCap
  , tryLitHashColonCap "Order"
  , tryLitNoNumNumberColonCap "Order"
  , tryTwoWordsCap "Sales" "Order"
  , tryTwoWordsCap "Work" "Order"
  , tryLitOptHashColonCap "Reference"
  , tryLitOptHashColonCap "Ticket"
  , tryLitOptHashColonCap "Document"
  , tryLitOptHashColonCap "Receipt"
  , tryLitOptHashColonCap "Confirmation"
  , tryTransactionCap ]

/-- Try the patterns in order; for each, `re.search` the text, strip the
capture and accept it if the filter holds, otherwise move to the next
pattern (exactly the two loops of STEP 1). -/
def firstAccept (accept : List Char → Bool) :
    List (List Char → Option (List Char)) → List Char → Option (List Char)
  | [], _ => none
  | p :: ps, text =>
      match reSearch (fun _ cs => p cs) text with
      | some cand =>
          let c := pyStrip cand
          if accept c then some c else firstAccept accept ps text
      | none => firstAccept accept ps text

def primaryAccept (c : List Char) : Bool := 5 ≤ c.length

def fallbackAccept (c : List Char) : Bool :=
  let lc := c.map Char.toLower
  (!(lc == "date".data) && !(lc == "time".data) && !(lc == "page".data)) && 5 ≤ c.length

/-- STEP 1 of `extract_invoice_data`: the invoice-number detector. -/
def findInvoiceNumber (text : List Char) : Option (List Char) :=
  match firstAccept primaryAccept primaryInvoicePatterns text with
  | some inv => some inv
  | none => firstAccept fallbackAccept orderPatterns text

/-! ### Cost Extractor (app.py lines 2552-2573) -/

/-- `[:\s]*\$?\s*([0-9,]+\.\d{2})` after a matched label; returns the
captured amount as `(integer part with commas, two decimal digits)`,
the last consumed character, and the rest of the input. -/
def matchAmount (cs : List Char) :
    Option ((List Char × Char × Char) × Option Char × List Char) :=
  let r3 := skipWS (optCh '$' (skipWSColon cs))
  match munchAtLeast isDigitComma 1 r3 with
  | some (ip, r4) =>
      match r4 with
      | '.' :: d1 :: d2 :: rest =>
          if isDigitCh d1 && isDigitCh d2 then some ((ip, d1, d2), some d2, rest)
          else none
      | _ => none
  | none => none

/-- `TOTAL[:\s]*\$?\s*([0-9,]+\.\d{2})` scanner. -/
def costTotal (_ : Option Char) (cs : List Char) :
    Option ((List Char × Char × Char) × Option Char × List Char) :=
  (matchLitCI "TOTAL".data cs).bind matchAmount

/-- `Amount\s+Due[:\s]*\$?\s*([0-9,]+\.\d{2})` scanner. -/
def costAmountDue (_ : Option Char) (cs : List Char) :
    Option ((List Char × Char × Char) × Option Char × List Char) :=
  (matchLitCI "Amount".data cs).bind fun r1 =>
    (munchAtLeast isPySpace 1 r1).bind fun (_, r2) =>
      (matchLitCI "Due".data r2).bind matchAmount

/-- `Grand\s+Total[:\s]*\$?\s*([0-9,]+\.\d{2})` scanner. -/
def costGrandTotal (_ : Option Char) (cs : List Char) :
    Option ((List Char × Char × Char) × Option Char × List Char) :=
  (matchLitCI "Grand".data cs).bind fun r1 =>
    (munchAtLeast isPySpace 1 r1).bind fun (_, r2) =>
      (matchLitCI "Total".data r2).bind matchAmount

/-- `float(cost_str.replace(',', ''))` in cents (exact decimal model of the
source's float round-trip, which is exact for invoice-scale amounts). -/
def capCents (cap : List Char × Char × Char) : Nat :=
  digitsVal (cap.1.filter isDigitCh) * 100
    + ((cap.2.1.toNat - '0'.toNat) * 10 + (cap.2.2.toNat - '0'.toNat))

/-- STEP 3 of `extract_invoice_data`: label list in order, last occurrence
of the first label with any match, default `"0.00"`. -/
def findCost (text : List Char) : List Char :=
  match (reFindIter costTotal text).getLast? with
  | some cap => fmtCents (capCents cap)
  | none =>
      match (reFindIter costAmountDue text).getLast? with
      | some cap => fmtCents (capCents cap)
      | none =>
          match (reFindIter costGrandTotal text).getLast? with
          | some cap => fmtCents (capCents cap)
          | none => "0.00".data

/-! ### Eligible-PO map (the `po_map` dict of `process_bulk_pdf`) -/

structure POInfo where
  tech_name : String
  job_name : String
  estimated_cost : ℚ
deriving DecidableEq

/-- `po_map`: insertion-ordered dict keyed by the PO's integer id. -/
abbrev POMap := List (Int × POInfo)

def poLookup (m : POMap) (k : Int) : Option POInfo :=
  (m.find? (fun kv => kv.1 == k)).map (·.2)

/-- Python `k in po_map`. -/
def poMem (m : POMap) (k : Int) : Bool := (poLookup m k).isSome

/-! ### `match_invoice_with_claude` (app.py lines 671-799)

The network call is external: the model takes the raw response text as an
`Option (List Char)` (`none` models an API/transport error, which the
source catches and turns into "no match").  Only the pure
enablement checks, response parsing and accept/reject logic of the source
are embedded.  The usage logging (`log_claude_api_usage`) is an external
write and is not modelled. -/

/-- `{'high': 0.95, 'medium': 0.80, 'low': 0.60}.get(confidence.lower(), 0.5)`
(exact rationals). -/
def confidenceScore (lc : List Char) : ℚ :=
  if lc == "high".data then mkRat 95 100
  else if lc == "medium".data then mkRat 80 100
  else if lc == "low".data then mkRat 60 100
  else mkRat 1 2

/-- The response-parsing loop: lines containing `':'` become
`(key.strip().upper(), value.strip())` entries, in order. -/
def parseClaudeLines (rt : List Char) : List (List Char × List Char) :=
  (splitOnChar '\n' (pyStrip rt)).filterMap (fun line =>
    (splitFirstColon line).map (fun kv => ((pyStrip kv.1).map Char.toUpper, pyStrip kv.2)))

/-- `result.get(key, default)` for the dict built by repeated assignment
(later lines overwrite earlier ones). -/
def dictGetLast (assoc : List (List Char × List Char)) (key : List Char)
    (dfl : List Char) : List Char :=
  match (assoc.filter (fun kv => kv.1 == key)).getLast? with
  | some kv => kv.2
  | none => dfl

/-- Pure embedding of `match_invoice_with_claude`; returns
`some (po_number, job_name, confidence_score)` on the source's successful
path and `none` for every `(None, None, 0)` return. -/
def match_invoice_with_claude (claudeEnabled : Bool) (_invoice_text : List Char)
    (active_jobs : List String) (po_map : POMap) (resp : Option (List Char)) :
    Option (Int × List Char × ℚ) :=
  if !claudeEnabled then none
  else if active_jobs.isEmpty || po_map.isEmpty then none
  else
    match resp with
    | none => none
    | some rt =>
        let result := parseClaudeLines rt
        let matched := (dictGetLast result "MATCHED".data "no".data).map Char.toLower == "yes".data
        let job_name := dictGetLast result "JOB_NAME".data "none".data
        let poStr := dictGetLast result "PO_NUMBER".data "none".data
        let confidence := dictGetLast result "CONFIDENCE".data "low".data
        if !matched || job_name.map Char.toLower == "none".data
            || poStr.map Char.toLower == "none".data then none
        else
          match pyInt poStr with
          | none => none
          | some po =>
              if poMem po_map po then
                some (po, job_name, confidenceScore (confidence.map Char.toLower))
              else none

/-! ### Method 1: table-column approach (app.py lines 2298-2369) -/

/-- `(ORDER\s*#\s*)(PO\s*#)`. -/
def hdrOrderPO (cs : List Char) : Bool :=
  (Option.isSome <| (matchLitCI "ORDER".data cs).bind fun r1 =>
    match skipWS r1 with
    | '#' :: r2 =>
        (matchLitCI "PO".data (skipWS r2)).bind fun r3 =>
          match skipWS r3 with
          | '#' :: r4 => some r4
          | _ => none
    | _ => none)

/-- `Purchase\s+Order[/\s]*Job\s+Name`. -/
def hdrPurchaseOrderJobName (cs : List Char) : Bool :=
  (Option.isSome <| (matchLitCI "Purchase".data cs).bind fun r1 =>
    (munchAtLeast isPySpace 1 r1).bind fun p2 =>
      (matchLitCI "Order".data p2.2).bind fun r2 =>
        (matchLitCI "Job".data (r2.dropWhile (fun c => c = '/' || isPySpace c))).bind fun r3 =>
          (munchAtLeast isPySpace 1 r3).bind fun p4 =>
            matchLitCI "Name".data p4.2)

/-- `<w1>\s*<w2>` two-literal header. -/
def hdrTwoLits (w1 w2 : String) (cs : List Char) : Bool :=
  (Option.isSome <| (matchLitCI w1.data cs).bind fun r1 =>
    matchLitCI w2.data (skipWS r1))

/-- `<lit>\s*#` header. -/
def hdrLitHash (lit : String) (cs : List Char) : Bool :=
  match (matchLitCI lit.data cs).map skipWS with
  | some ('#' :: _) => true
  | _ => false

/-- `Reference` (plain literal) header. -/
def hdrReference (cs : List Char) : Bool := (matchLitCI "Reference".data cs).isSome

/-- The eleven `header_patterns`, in source order. -/
def headerPatterns : List (List Char → Bool) :=
  [ hdrOrderPO
  , hdrPurchaseOrderJobName
  , hdrTwoLits "PO" "Number"
  , hdrLitHash "PO"
  , hdrTwoLits "Customer" "PO"
  , hdrLitHash "Job"
  , hdrTwoLits "Job" "Name"
  , hdrTwoLits "Job" "Number"
  , hdrTwoLits "Work" "Order"
  , hdrLitHash "Project"
  , hdrReference ]

/-- `\b` before a digit: previous character absent or not a word character. -/
def boundaryBefore : Option Char → Bool
  | none => true
  | some c => !isWordCh c

/-- `S-(\d{4,})` scanner (capture value as `Nat`). -/
def numS4 (_ : Option Char) (cs : List Char) : Option (Nat × Option Char × List Char) :=
  (matchLitCI "S-".data cs).bind fun r1 =>
    (munchAtLeast isDigitCh 4 r1).map fun p =>
      (digitsVal p.1, p.1.getLast?, p.2)

/-- `\b(\d{4,})[A-Za-z]+` scanner. -/
def numDigitsAlpha (prev : Option Char) (cs : List Char) :
    Option (Nat × Option Char × List Char) :=
  if boundaryBefore prev then
    (munchAtLeast isDigitCh 4 cs).bind fun p =>
      (munchAtLeast isAlphaCh 1 p.2).map fun q =>
        (digitsVal p.1, q.1.getLast?, q.2)
  else none

/-- `:\s*(\d{4,})\s+[A-Za-z]` scanner. -/
def numColonDigitsAlpha (_ : Option Char) (cs : List Char) :
    Option (Nat × Option Char × List Char) :=
  match cs with
  | ':' :: r1 =>
      (munchAtLeast isDigitCh 4 (skipWS r1)).bind fun p =>
        (munchAtLeast isPySpace 1 p.2).bind fun q =>
          match q.2 with
          | a :: rest => if isAlphaCh a then some (digitsVal p.1, some a, rest) else none
          | [] => none
  | _ => none

/-- `\b(\d{4,})\s+[A-Za-z]{3,}` scanner. -/
def numDigitsSpaceWord (prev : Option Char) (cs : List Char) :
    Option (Nat × Option Char × List Char) :=
  if boundaryBefore prev then
    (munchAtLeast isDigitCh 4 cs).bind fun p =>
      (munchAtLeast isPySpace 1 p.2).bind fun q =>
        (munchAtLeast isAlphaCh 3 q.2).map fun w =>
          (digitsVal p.1, w.1.getLast?, w.2)
  else none

/-- `\b(\d{4,})\b` scanner. -/
def numPlain (prev : Option Char) (cs : List Char) :
    Option (Nat × Option Char × List Char) :=
  if boundaryBefore prev then
    (munchAtLeast isDigitCh 4 cs).bind fun p =>
      match p.2 with
      | [] => some (digitsVal p.1, p.1.getLast?, [])
      | c :: _ => if isWordCh c then none else some (digitsVal p.1, p.1.getLast?, p.2)
  else none

/-- The five `number_patterns` of Method 1, in source order. -/
def numberPatterns :
    List (Option Char → List Char → Option (Nat × Option Char × List Char)) :=
  [numS4, numDigitsAlpha, numColonDigitsAlpha, numDigitsSpaceWord, numPlain]

/-- `for match in matches: ... if candidate in po_map: matched`. -/
def firstMemCandidate (po_map : POMap) : List Nat → Option Int
  | [] => none
  | n :: rest => if poMem po_map (n : Int) then some (n : Int) else firstMemCandidate po_map rest

/-- The running `(po_number, match_method)` pair of `extract_invoice_data`
(both are set together at every assignment site).  `none` is Python
`po_number = None`. -/
abbrev POState := Option (Int × List Char)

/-- Python truthiness of `po_number`: falsy when `None` or `0` — the
methods' `if po_number: break` / `if not po_number:` guards use this, so a
matched PO id 0 does not stop the chain. -/
def poTruthy : POState → Bool
  | none => false
  | some (p, _) => p != 0

/-- One line of Method 1: `for pattern in number_patterns` with its
top-of-loop `if po_number: break`; each pattern assigns its first
eligible candidate (then breaks the innermost match loop). -/
def lineScan (po_map : POMap) (line : List Char) (st : POState) :
    List (Option Char → List Char → Option (Nat × Option Char × List Char)) → POState
  | [] => st
  | p :: ps =>
      if poTruthy st then st
      else
        let st' := match firstMemCandidate po_map (reFindIter p line) with
          | some po => some (po, "Table Column".data)
          | none => st
        lineScan po_map line st' ps

/-- `lines_to_check` loop of Method 1 (top-of-loop `if po_number: break`). -/
def linesScan (po_map : POMap) (st : POState) : List (List Char) → POState
  | [] => st
  | l :: ls =>
      if poTruthy st then st
      else linesScan po_map (lineScan po_map l st numberPatterns) ls

/-- Method 1 (table headers): `for header_pattern in header_patterns` with
its top-of-loop `if po_number: break`; where a header occurs, the text from
its position is split on newlines and the first two lines are scanned. -/
def tableColumnMethod (text : List Char) (po_map : POMap) (st : POState) :
    List (List Char → Bool) → POState
  | [] => st
  | h :: hs =>
      if poTruthy st then st
      else
        match reSearchIdx (fun _ cs => h cs) text with
        | some idx =>
            let lines := splitOnChar '\n' (text.drop idx)
            tableColumnMethod text po_map (linesScan po_map st (lines.take 2)) hs
        | none => tableColumnMethod text po_map st hs

/-! ### Method 2: pattern matching fallback (app.py lines 2371-2419) -/

/-- Common prefix `PO\s*#?\s*[:\s]*`. -/
def afterPOPrefix (cs : List Char) : Option (List Char) :=
  (matchLitCI "PO".data cs).map fun r1 => skipWSColon (skipWS (optCh '#' (skipWS r1)))

/-- `(\d{4,})` capture ending the match (`PO: XXXX` shape). -/
def capDigits4 (cs : List Char) : Option (Nat × Option Char × List Char) :=
  (munchAtLeast isDigitCh 4 cs).map fun p => (digitsVal p.1, p.1.getLast?, p.2)

/-- `(\d{4,})[A-Za-z]+` capture. -/
def capDigits4Alpha (cs : List Char) : Option (Nat × Option Char × List Char) :=
  (munchAtLeast isDigitCh 4 cs).bind fun p =>
    (munchAtLeast isAlphaCh 1 p.2).map fun q => (digitsVal p.1, q.1.getLast?, q.2)

/-- `(\d{4,})\s+[A-Za-z]` capture. -/
def capDigits4SpaceAlpha (cs : List Char) : Option (Nat × Option Char × List Char) :=
  (munchAtLeast isDigitCh 4 cs).bind fun p =>
    (munchAtLeast isPySpace 1 p.2).bind fun q =>
      match q.2 with
      | a :: rest => if isAlphaCh a then some (digitsVal p.1, some a, rest) else none
      | [] => none

def po2S4 (_ : Option Char) (cs : List Char) : Option (Nat × Option Char × List Char) :=
  (afterPOPrefix cs).bind fun r => (matchLitCI "S-".data r).bind capDigits4

def po2DigitsAlpha (_ : Option Char) (cs : List Char) :
    Option (Nat × Option Char × List Char) :=
  (afterPOPrefix cs).bind capDigits4Alpha

def po2DigitsSpaceAlpha (_ : Option Char) (cs : List Char) :
    Option (Nat × Option Char × List Char) :=
  (afterPOPrefix cs).bind capDigits4SpaceAlpha

def po2Digits (_ : Option Char) (cs : List Char) :
    Option (Nat × Option Char × List Char) :=
  (afterPOPrefix cs).bind capDigits4

/-- `Customer\s*PO\s*#?\s*[:\s]*(\d{4,})`. -/
def po2Customer (_ : Option Char) (cs : List Char) :
    Option (Nat × Option Char × List Char) :=
  (matchLitCI "Customer".data cs).bind fun r1 => (afterPOPrefix (skipWS r1)).bind capDigits4

/-- `Job\s*#\s*[:\s]*(\d{4,})`. -/
def po2JobHash (_ : Option Char) (cs : List Char) :
    Option (Nat × Option Char × List Char) :=
  (matchLitCI "Job".data cs).bind fun r1 =>
    match skipWS r1 with
    | '#' :: r2 => capDigits4 (skipWSColon (skipWS r2))
    | _ => none

/-- `Job\s*(?:Name|Number)\s*[:\s]*(\d{4,})`. -/
def po2JobNameNumber (_ : Option Char) (cs : List Char) :
    Option (Nat × Option Char × List Char) :=
  (matchLitCI "Job".data cs).bind fun r1 =>
    let r2 := skipWS r1
    let tail := fun (r : List Char) => capDigits4 (skipWSColon (skipWS r))
    match (matchLitCI "Name".data r2).bind tail with
    | some t => some t
    | none => (matchLitCI "Number".data r2).bind tail

/-- `Project\s*#?\s*[:\s]*(\d{4,})`. -/
def po2Project (_ : Option Char) (cs : List Char) :
    Option (Nat × Option Char × List Char) :=
  (matchLitCI "Project".data cs).bind fun r1 =>
    capDigits4 (skipWSColon (skipWS (optCh '#' (skipWS r1))))

/-- `Work\s*Order\s*#?\s*[:\s]*(\d{4,})`. -/
def po2WorkOrder (_ : Option Char) (cs : List Char) :
    Option (Nat × Option Char × List Char) :=
  (matchLitCI "Work".data cs).bind fun r1 =>
    (matchLitCI "Order".data (skipWS r1)).bind fun r2 =>
      capDigits4 (skipWSColon (skipWS (optCh '#' (skipWS r2))))

/-- `[\s\S]*?(\d{4,})[A-Za-z]+`: lazily find the first position where a run
of at least four digits is immediately followed by a letter. -/
def lazyDigits4Alpha : List Char → Option (Nat × Option Char × List Char)
  | [] => none
  | c :: cs =>
      match capDigits4Alpha (c :: cs) with
      | some r => some r
      | none => lazyDigits4Alpha cs

/-- `Purchase\s+Order[/\s]+Job\s+Name[\s\S]*?(\d{4,})[A-Za-z]+`. -/
def po2PurchaseOrderJobName (_ : Option Char) (cs : List Char) :
    Option (Nat × Option Char × List Char) :=
  (matchLitCI "Purchase".data cs).bind fun r1 =>
    (munchAtLeast isPySpace 1 r1).bind fun p2 =>
      (matchLitCI "Order".data p2.2).bind fun r2 =>
        (munchAtLeast (fun c => c = '/' || isPySpace c) 1 r2).bind fun p3 =>
          (matchLitCI "Job".data p3.2).bind fun r3 =>
            (munchAtLeast isPySpace 1 r3).bind fun p4 =>
              (matchLitCI "Name".data p4.2).bind lazyDigits4Alpha

/-- `PO\s*Number[:\s]+(\d{4,})\s+[A-Za-z]`. -/
def po2PONumberSpaceAlpha (_ : Option Char) (cs : List Char) :
    Option (Nat × Option Char × List Char) :=
  (matchLitCI "PO".data cs).bind fun r1 =>
    (matchLitCI "Number".data (skipWS r1)).bind fun r2 =>
      (munchAtLeast (fun c => isPySpace c || c = ':') 1 r2).bind fun p3 =>
        capDigits4SpaceAlpha p3.2

/-- `PO\s*Number[:\s]+(\d{4,})`. -/
def po2PONumber (_ : Option Char) (cs : List Char) :
    Option (Nat × Option Char × List Char) :=
  (matchLitCI "PO".data cs).bind fun r1 =>
    (matchLitCI "Number".data (skipWS r1)).bind fun r2 =>
      (munchAtLeast (fun c => isPySpace c || c = ':') 1 r2).bind fun p3 =>
        capDigits4 p3.2

/-- `\b(\d{4,})[A-Za-z]{3,}`. -/
def po2BareDigitsWord (prev : Option Char) (cs : List Char) :
    Option (Nat × Option Char × List Char) :=
  if boundaryBefore prev then
    (munchAtLeast isDigitCh 4 cs).bind fun p =>
      (munchAtLeast isAlphaCh 3 p.2).map fun q => (digitsVal p.1, q.1.getLast?, q.2)
  else none

/-- Optional single character, case-insensitively (regex `c?` under
`re.IGNORECASE`). -/
def optChCI (c : Char) : List Char → List Char
  | [] => []
  | d :: cs => if chEqCI c d then cs else d :: cs

/-- `(?:SOMERVILLE|HERONS?\s*GLEN|SERVICE)` with regex alternation order.
The reported last-consumed character is a fixed letter; only its
word-character status is ever inspected (for `\b`), which is the same for
any letter actually consumed. -/
def knownJobAlt (cs : List Char) : Option (Option Char × List Char) :=
  match matchLitCI "SOMERVILLE".data cs with
  | some r => some (some 'E', r)
  | none =>
      match (matchLitCI "HERON".data cs).bind (fun r1 =>
          matchLitCI "GLEN".data (skipWS (optChCI 'S' r1))) with
      | some r => some (some 'N', r)
      | none =>
          match matchLitCI "SERVICE".data cs with
          | some r => some (some 'E', r)
          | none => none

/-- `\b(\d{4,})\s+(?:SOMERVILLE|HERONS?\s*GLEN|SERVICE)`. -/
def po2KnownJob (prev : Option Char) (cs : List Char) :
    Option (Nat × Option Char × List Char) :=
  if boundaryBefore prev then
    (munchAtLeast isDigitCh 4 cs).bind fun p =>
      (munchAtLeast isPySpace 1 p.2).bind fun q =>
        (knownJobAlt q.2).map fun w => (digitsVal p.1, w.1, w.2)
  else none

/-- The fourteen `po_patterns` of Method 2, in source order. -/
def poPatterns :
    List (Option Char → List Char → Option (Nat × Option Char × List Char)) :=
  [ po2S4, po2DigitsAlpha, po2DigitsSpaceAlpha, po2Digits
  , po2Customer, po2JobHash, po2JobNameNumber, po2Project, po2WorkOrder
  , po2PurchaseOrderJobName, po2PONumberSpaceAlpha, po2PONumber
  , po2BareDigitsWord, po2KnownJob ]

/-- Method 2's pattern loop: each pattern assigns its first eligible
candidate over the whole text, with a bottom-of-loop `if po_number: break`;
the enclosing `if not po_number:` guard lives in the chain. -/
def patternMethod (text : List Char) (po_map : POMap) (st : POState) :
    List (Option Char → List Char → Option (Nat × Option Char × List Char)) → POState
  | [] => st
  | p :: ps =>
      let st' := match firstMemCandidate po_map (reFindIter p text) with
        | some po => some (po, "Pattern Match".data)
        | none => st
      if poTruthy st' then st' else patternMethod text po_map st' ps

/-! ### Method 3: direct search for known PO ids (app.py lines 2421-2466) -/

/-- Case-sensitive literal match. -/
def matchLitExact : List Char → List Char → Option (List Char)
  | [], cs => some cs
  | _ :: _, [] => none
  | p :: ps, c :: cs => if p = c then matchLitExact ps cs else none

/-- `rf'{po_str}\s*{job_name_no_spaces}'` searched in the uppercased text
(case-sensitive, as in the source). -/
def concatTry (ps jns : List Char) (cs : List Char) : Option Unit :=
  (matchLitExact ps cs).bind fun r =>
    (matchLitExact jns (skipWS r)).map fun _ => ()

/-- `rf'(?:PO|Purchase\s*Order|Order|Job)[^0-9]*{po_str}'` with
`re.IGNORECASE`, at one position. -/
def contextTry (ps : List Char) (cs : List Char) : Option Unit :=
  let tail := fun (r : List Char) =>
    if ps.isPrefixOf (r.dropWhile (fun c => !isDigitCh c)) then some () else none
  match (matchLitCI "PO".data cs).bind tail with
  | some _ => some ()
  | none =>
      match ((matchLitCI "Purchase".data cs).bind fun r1 =>
          (matchLitCI "Order".data (skipWS r1)).bind tail) with
      | some _ => some ()
      | none =>
          match (matchLitCI "Order".data cs).bind tail with
          | some _ => some ()
          | none => (matchLitCI "Job".data cs).bind tail

/-- The item loop of Method 3 over the eligible map (`text_upper` is the
uppercased text, computed once before the loop). -/
def directSearchGo (text text_upper : List Char) : POMap → Option Int
  | [] => none
  | (po_id, info) :: rest =>
      let po_str := intStr po_id
      let job_name := info.job_name.data.map Char.toUpper
      let jns := job_name.filter (fun c => !(c = ' ' || c = '-' || c = '_'))
      if containsSub po_str text then
        if (reSearch (fun _ cs => concatTry po_str jns cs) text_upper).isSome then
          some po_id
        else
          let job_parts := pySplitWS (job_name.map fun c =>
            if c = '-' || c = '_' then ' ' else c)
          if job_parts.any (fun part => 3 ≤ part.length && containsSub part text_upper) then
            some po_id
          else if (reSearch (fun _ cs => contextTry po_str cs) text).isSome then
            some po_id
          else directSearchGo text text_upper rest
      else directSearchGo text text_upper rest

/-- Method 3: iterate the eligible map in insertion order; a PO wins when
its decimal id occurs in the text and one of the three corroborations
holds (concatenated job name, a job-name word of length ≥ 3, or a
PO/Order/Job label context). -/
def directSearchMethod (text : List Char) (po_map : POMap) : Option Int :=
  directSearchGo text (text.map Char.toUpper) po_map

/-! ### `find_job_name_in_text` (app.py lines 519-589)

The float factor `0.3` in the window-length filter is modelled as the
exact rational `3/10`. -/

/-- One window size of the sliding-window loop (the inner `for i` loop,
folding the best `(score, pos, match)` candidate). -/
def windowsForSize (text_upper : List Char) (words : List (List Char))
    (job_len : Nat) (job_no_spaces : List Char) (threshold : ℚ) (ws : Nat)
    (st : ℚ × Int × Option (List Char)) : ℚ × Int × Option (List Char) :=
  (List.range (words.length - ws + 1)).foldl (fun st i =>
    let window_words := (words.drop i).take ws
    let window_text := window_words.flatten
    if (((((window_text.length : Int) - (job_len : Int)).natAbs : Nat) : ℚ))
        > max 3 (mkRat (3 * job_len) 10) then st
    else
      let score := fuzzy_match_score ⟨window_text⟩ ⟨job_no_spaces⟩
      if score > st.1 ∧ threshold ≤ score then
        (score, pyFind (window_words.headD []) text_upper,
          some (List.intercalate [' '] window_words))
      else st) st

/-- app.py `find_job_name_in_text`: returns
`(found, position, matched_text, score)`. -/
def find_job_name_in_text (text job_name : List Char) (threshold : ℚ) :
    Bool × Int × Option (List Char) × ℚ :=
  if text.isEmpty || job_name.isEmpty then (false, -1, none, 0)
  else
    let text_upper := text.map Char.toUpper
    let job_upper := pyStrip (job_name.map Char.toUpper)
    let job_no_spaces := job_upper.filter (fun c => !(c = ' ' || c = '-' || c = '_'))
    let job_normalized := normCore job_name
    if containsSub job_normalized (normCore text) then
      let pos := pyFind job_upper text_upper
      let pos := if pos = -1 then pyFind job_no_spaces (text_upper.filter (fun c => !(c = ' '))) else pos
      (true, if 0 ≤ pos then pos else 0, some job_normalized, 1)
    else
      let text_no_spaces := text_upper.filter (fun c => !(c = ' '))
      if containsSub job_no_spaces text_no_spaces then
        (true, pyFind job_no_spaces text_no_spaces, some job_no_spaces, mkRat 49 50)
      else
        let job_len := job_no_spaces.length
        let words := pySplitWS text_upper
        let best := (List.range' 1 (min 4 words.length)).foldl
          (fun st ws => windowsForSize text_upper words job_len job_no_spaces threshold ws st)
          ((0 : ℚ), (-1 : Int), (none : Option (List Char)))
        if threshold ≤ best.1 then (true, best.2.1, best.2.2, best.1)
        else (false, -1, none, best.1)

/-! ### Method 4: fuzzy job-name scanning (app.py lines 2468-2550) -/

/-- `\b(\d{3,5})\b` (the `re.findall` of Method 4). -/
def num3to5 (prev : Option Char) (cs : List Char) :
    Option (Nat × Option Char × List Char) :=
  if boundaryBefore prev then
    (munchAtLeast isDigitCh 3 cs).bind fun p =>
      if p.1.length ≤ 5 then
        match p.2 with
        | [] => some (digitsVal p.1, p.1.getLast?, [])
        | c :: _ => if isWordCh c then none else some (digitsVal p.1, p.1.getLast?, p.2)
      else none
  else none

/-- The candidate loop of Method 4a: first number near the job-name match
that is an eligible PO whose own job name fuzzy-matches at ≥ 0.75. -/
def m4aCandLoop (po_map : POMap) (job_name : List Char) : List Nat → Option Int
  | [] => none
  | n :: rest =>
      match poLookup po_map (n : Int) with
      | some info =>
          if mkRat 3 4 ≤ fuzzy_match_score ⟨info.job_name.data.map Char.toUpper⟩ ⟨job_name⟩
          then some (n : Int)
          else m4aCandLoop po_map job_name rest
      | none => m4aCandLoop po_map job_name rest

/-- Method 4a's job loop (top-of-loop `if po_number: break`): for each
active job name, fuzzy-find it (threshold 0.75) and scan the ±100-character
window around the hit for 3-5 digit numbers; the first number that is an
eligible PO whose job name fuzzy-matches at ≥ 0.75 is assigned. -/
def fuzzyScanMethod (text : List Char) (po_map : POMap) (st : POState) :
    List String → POState
  | [] => st
  | j :: rest =>
      if poTruthy st then st
      else
        let r := find_job_name_in_text text j.data (mkRat 3 4)
        if r.1 then
          let pos := r.2.1
          let search_start := (max 0 (pos - 100)).toNat
          let search_end := min text.length (pos.toNat + j.data.length + 100)
          let context := pySlice text search_start search_end
          let st' := match m4aCandLoop po_map j.data (reFindIter num3to5 context) with
            | some po => some (po, "Fuzzy Match".data)
            | none => st
          fuzzyScanMethod text po_map st' rest
        else fuzzyScanMethod text po_map st rest

/-- Method 4b's job loop (threshold 0.70, top-of-loop `if po_number:
break`): assign the first eligible PO whose job name fuzzy-matches the
found job at ≥ 0.75 and whose decimal id occurs anywhere in the text. -/
def fuzzyBroadMethod (text : List Char) (po_map : POMap) (st : POState) :
    List String → POState
  | [] => st
  | j :: rest =>
      if poTruthy st then st
      else
        let r := find_job_name_in_text text j.data (mkRat 7 10)
        if r.1 then
          let matching_pos := (po_map.filter (fun kv =>
            decide (mkRat 3 4 ≤ fuzzy_match_score ⟨kv.2.job_name.data⟩ ⟨j.data⟩))).map (·.1)
          let st' := match matching_pos.find? (fun po => containsSub (intStr po) text) with
            | some po => some (po, "Fuzzy Match".data)
            | none => st
          fuzzyBroadMethod text po_map st' rest
        else fuzzyBroadMethod text po_map st rest

/-! ### STEP 2: the strategy chain of `extract_invoice_data`
(app.py lines 2279-2550) -/

/-- The strategy chain of STEP 2: Claude assist (guarded by
`if po_map and is_claude_matching_enabled()` and accepted by
`if claude_po and confidence >= 0.6`), then Method 1 (whose header loop
always runs but breaks on a truthy `po_number`), Method 2 (guarded by
`if not po_number:`), Method 3 and Method 4 with 4b (each guarded by
`if not po_number and po_map:` resp. a nested `if not po_number:`).
Returns the final `(po_number, match_method)` state. -/
def methodChain (text : List Char) (po_map : POMap) (active_jobs : List String)
    (st0 : POState) : POState :=
  let st1 := tableColumnMethod text po_map st0 headerPatterns
  let st2 := if poTruthy st1 then st1 else patternMethod text po_map st1 poPatterns
  let st3 :=
    if !(poTruthy st2) && !po_map.isEmpty then
      match directSearchMethod text po_map with
      | some po => some (po, "Direct Search".data)
      | none => st2
    else st2
  if !(poTruthy st3) && !po_map.isEmpty then
    let st4 := fuzzyScanMethod text po_map st3 active_jobs
    if poTruthy st4 then st4 else fuzzyBroadMethod text po_map st4 active_jobs
  else st3

def findPONumber (text : List Char) (po_map : POMap) (claudeEnabled : Bool)
    (active_jobs : List String) (claudeResp : Option (List Char)) : POState :=
  methodChain text po_map active_jobs
    (if !po_map.isEmpty && claudeEnabled then
      match match_invoice_with_claude claudeEnabled text active_jobs po_map claudeResp with
      | some (po, _, conf) =>
          if po ≠ 0 ∧ mkRat 3 5 ≤ conf then some (po, "Claude AI".data) else none
      | none => none
    else none)

/-! ### `extract_invoice_data` (app.py lines 2201-2603) -/

structure SuccessData where
  po_id : Int
  invoice_number : List Char
  cost : List Char
  match_method : List Char
deriving DecidableEq

structure ErrData where
  invoice_number : List Char
  cost : List Char
  message : List Char
deriving DecidableEq

inductive ExtractResult where
  | ok (d : SuccessData)
  | err (e : ErrData)
deriving DecidableEq

/-- app.py `extract_invoice_data`.  `none` = Python `None` (no text or no
invoice number); `err` = the `'error': True` dict (reached whenever the
final `po_number` is falsy, i.e. `None` or `0`); `ok` = the success
dict. -/
def extract_invoice_data (text : List Char) (po_map : POMap) (claudeEnabled : Bool)
    (active_jobs : List String) (claudeResp : Option (List Char)) :
    Option ExtractResult :=
  if text.isEmpty then none
  else
    match findInvoiceNumber text with
    | none => none
    | some inv =>
        let poRes := findPONumber text po_map claudeEnabled active_jobs claudeResp
        let cost := findCost text
        match poRes with
        | some (po, mm) =>
            if po ≠ 0 then some (.ok ⟨po, inv, cost, mm⟩)
            else some (.err ⟨inv, cost,
              "Invoice ".data ++ inv ++ " - PO already has invoice or not approved".data⟩)
        | none =>
            some (.err ⟨inv, cost,
              "Invoice ".data ++ inv ++ " - PO already has invoice or not approved".data⟩)

/-! ### `process_bulk_pdf` (app.py lines 1969-2137)

PDF reading, OCR and the database are external to the model: a page is
represented by its extracted text (and the Claude response the page would
receive), and the eligible map `po_map` is the query result supplied at
run start. -/

/-- One page of the uploaded PDF: its extracted text and the Claude
response for it (when the assist is consulted). -/
structure PageInput where
  text : List Char
  claudeResp : Option (List Char)
deriving DecidableEq

/-- One entry of `invoice_groups`: the Python dict is keyed by invoice
number in insertion order; `data` is set once by the first acquiring page,
`pages` collects 0-based page indices, `texts` the page texts. -/
structure Group where
  inv_num : List Char
  pages : List Nat
  texts : List (List Char)
  data : SuccessData
deriving DecidableEq

/-- An entry of `results['errors']`. -/
structure ErrorEntry where
  page : Nat
  invoice_number : List Char
  cost : List Char
  error : List Char
  message : List Char
  text_preview : List Char
deriving DecidableEq

/-- An entry of `results['unmatched']`. -/
structure UnmatchedEntry where
  page : Nat
  text_preview : List Char
  filename : List Char
deriving DecidableEq

/-- The loop state of the page loop. -/
structure LoopState where
  processed : Nat
  groups : List Group
  errors : List ErrorEntry
  unmatched : List UnmatchedEntry
deriving DecidableEq

/-- `invoice_groups[inv_num]` update: create the group with `data` on
first sight of the invoice number, then append the page index and text. -/
def groupsInsert (gs : List Group) (inv : List Char) (pageIdx : Nat)
    (text : List Char) (d : SuccessData) : List Group :=
  if gs.any (fun g => g.inv_num == inv) then
    gs.map fun g =>
      if g.inv_num == inv then ⟨g.inv_num, g.pages ++ [pageIdx], g.texts ++ [text], g.data⟩
      else g
  else gs ++ [⟨inv, [pageIdx], [text], d⟩]

/-- The body of the page loop (`for page_num, page in enumerate(pdf.pages, 1)`):
success → group by invoice number; error dict → append to `errors` (with
`'NO MATCHING PO FOUND'` and a 300-character preview); `None` → append to
`unmatched` (200-character preview and `UNMATCHED_` filename). -/
def pageStep (po_map : POMap) (claudeEnabled : Bool) (active_jobs : List String)
    (timestamp : List Char) (st : LoopState) (page_num : Nat) (p : PageInput) : LoopState :=
  let processed := st.processed + 1
  match extract_invoice_data p.text po_map claudeEnabled active_jobs p.claudeResp with
  | some (.ok d) =>
      ⟨processed, groupsInsert st.groups d.invoice_number (page_num - 1) p.text d,
        st.errors, st.unmatched⟩
  | some (.err e) =>
      ⟨processed, st.groups,
        st.errors ++ [⟨page_num, e.invoice_number, e.cost,
          "NO MATCHING PO FOUND".data, e.message, p.text.take 300⟩],
        st.unmatched⟩
  | none =>
      ⟨processed, st.groups, st.errors,
        st.unmatched ++ [⟨page_num, p.text.take 200,
          "UNMATCHED_".data ++ timestamp ++ "_page".data ++ natDigits page_num
            ++ ".pdf".data⟩]⟩

/-- The page loop, pages numbered from 1. -/
def runPagesFrom (po_map : POMap) (claudeEnabled : Bool) (active_jobs : List String)
    (timestamp : List Char) (st : LoopState) (page_num : Nat) : List PageInput → LoopState
  | [] => st
  | p :: ps =>
      runPagesFrom po_map claudeEnabled active_jobs timestamp
        (pageStep po_map claudeEnabled active_jobs timestamp st page_num p) (page_num + 1) ps

def runPages (po_map : POMap) (claudeEnabled : Bool) (active_jobs : List String)
    (timestamp : List Char) (pages : List PageInput) : LoopState :=
  runPagesFrom po_map claudeEnabled active_jobs timestamp ⟨0, [], [], []⟩ 1 pages

/-- A file written by the save loop. -/
structure SavedMatch where
  po_id : Int
  filename : List Char
  invoice_number : List Char
  cost : List Char
  match_method : List Char
  pages : List Nat
deriving DecidableEq

/-- An entry of `results['details']`. -/
structure DetailEntry where
  page : List Char
  po_number : Int
  job_name : List Char
  estimated_cost : ℚ
  invoice_number : List Char
  cost : List Char
  pages : Nat
deriving DecidableEq

/-- One iteration of the save loop (`for inv_num, group in
invoice_groups.items()`): the filename is
`f"PO{po_id:04d}_{timestamp}_INV{inv_num}.pdf"` and the detail entry reads
the job name and estimated cost back from `po_map` (defaults `'Unknown'`
and `0.00`). -/
def saveGroup (po_map : POMap) (timestamp : List Char) (g : Group) :
    SavedMatch × DetailEntry :=
  let d := g.data
  let filename := "PO".data ++ pyFormat04d d.po_id ++ "_".data ++ timestamp
      ++ "_INV".data ++ g.inv_num ++ ".pdf".data
  let job_name := match poLookup po_map d.po_id with
    | some info => info.job_name.data
    | none => "Unknown".data
  let estimated_cost := match poLookup po_map d.po_id with
    | some info => info.estimated_cost
    | none => 0
  let pageField := natDigits (g.pages.headD 0 + 1) ++
    (if 1 < g.pages.length then "-".data ++ natDigits (g.pages.getLastD 0 + 1) else [])
  (⟨d.po_id, filename, g.inv_num, d.cost, d.match_method, g.pages⟩,
   ⟨pageField, d.po_id, job_name, estimated_cost, g.inv_num, d.cost, g.pages.length⟩)

/-- The summary returned by `process_bulk_pdf` (`results['matched']` is
incremented once per saved group). -/
structure RunResult where
  processed : Nat
  matched : Nat
  errors : List ErrorEntry
  unmatched : List UnmatchedEntry
  saved : List SavedMatch
  details : List DetailEntry
  groups : List Group
deriving DecidableEq

/-- app.py `process_bulk_pdf`: run the page loop, then the save loop over
the invoice groups in insertion order. -/
def process_bulk_pdf (pages : List PageInput) (po_map : POMap) (claudeEnabled : Bool)
    (active_jobs : List String) (timestamp : List Char) : RunResult :=
  let st := runPages po_map claudeEnabled active_jobs timestamp pages
  let savedPairs := st.groups.map (saveGroup po_map timestamp)
  ⟨st.processed, st.groups.length, st.errors, st.unmatched,
    savedPairs.map (·.1), savedPairs.map (·.2), st.groups⟩

/-! ## Eligibility invariant of the matching chain (towards claims C1/C2) -/

/-- Every PO id a `POState` carries is a key of the eligible map. -/
def POStateMem (pm : POMap) : POState → Prop
  | none => True
  | some (p, _) => poMem pm p = true

theorem poMem_of_mem {pm : POMap} {k : Int} {v : POInfo} (h : (k, v) ∈ pm) :
    poMem pm k = true := by
  simp only [poMem, poLookup]
  cases hfind : pm.find? (fun kv => kv.1 == k) with
  | some kv => simp
  | none =>
      exfalso
      have := List.find?_eq_none.mp hfind (k, v) h
      simp at this

theorem firstMemCandidate_mem {pm : POMap} {ns : List Nat} {po : Int}
    (h : firstMemCandidate pm ns = some po) : poMem pm po = true := by
  induction ns with
  | nil => simp [firstMemCandidate] at h
  | cons n rest ih =>
      simp only [firstMemCandidate] at h
      split at h
      case isTrue hm => cases h; exact hm
      case isFalse => exact ih h

theorem POStateMem_lineScan {pm : POMap} {line : List Char}
    {ps : List (Option Char → List Char → Option (Nat × Option Char × List Char))} :
    ∀ {st : POState}, POStateMem pm st → POStateMem pm (lineScan pm line st ps) := by
  induction ps with
  | nil => intro st h; exact h
  | cons p ps ih =>
      intro st h
      simp only [lineScan]
      split
      · exact h
      · apply ih
        cases hfc : firstMemCandidate pm (reFindIter p line) with
        | some po => exact firstMemCandidate_mem hfc
        | none => exact h

theorem POStateMem_linesScan {pm : POMap} {ls : List (List Char)} :
    ∀ {st : POState}, POStateMem pm st → POStateMem pm (linesScan pm st ls) := by
  induction ls with
  | nil => intro st h; exact h
  | cons l ls ih =>
      intro st h
      simp only [linesScan]
      split
      · exact h
      · exact ih (POStateMem_lineScan h)

theorem POStateMem_tableColumnMethod {pm : POMap} {text : List Char}
    {hs : List (List Char → Bool)} :
    ∀ {st : POState}, POStateMem pm st →
      POStateMem pm (tableColumnMethod text pm st hs) := by
  induction hs with
  | nil => intro st h; exact h
  | cons hd hs ih =>
      intro st h
      simp only [tableColumnMethod]
      split
      · exact h
      · split
        · exact ih (POStateMem_linesScan h)
        · exact ih h

theorem POStateMem_patternMethod {pm : POMap} {text : List Char}
    {ps : List (Option Char → List Char → Option (Nat × Option Char × List Char))} :
    ∀ {st : POState}, POStateMem pm st →
      POStateMem pm (patternMethod text pm st ps) := by
  induction ps with
  | nil => intro st h; exact h
  | cons p ps ih =>
      intro st h
      simp only [patternMethod]
      have hst' : POStateMem pm
          (match firstMemCandidate pm (reFindIter p text) with
            | some po => some (po, "Pattern Match".data)
            | none => st) := by
        cases hfc : firstMemCandidate pm (reFindIter p text) with
        | some po => exact firstMemCandidate_mem hfc
        | none => exact h
      split
      · exact hst'
      · exact ih hst'

theorem directSearchGo_mem {text tu : List Char} {m : POMap} {po : Int}
    (h : directSearchGo text tu m = some po) : ∃ info, (po, info) ∈ m := by
  induction m with
  | nil => simp [directSearchGo] at h
  | cons kv rest ih =>
      obtain ⟨po_id, info⟩ := kv
      simp only [directSearchGo] at h
      split at h
      · split at h
        · cases h; exact ⟨info, List.mem_cons_self _ _⟩
        · split at h
          · cases h; exact ⟨info, List.mem_cons_self _ _⟩
          · split at h
            · cases h; exact ⟨info, List.mem_cons_self _ _⟩
            · obtain ⟨i, hi⟩ := ih h
              exact ⟨i, List.mem_cons_of_mem _ hi⟩
      · obtain ⟨i, hi⟩ := ih h
        exact ⟨i, List.mem_cons_of_mem _ hi⟩

theorem directSearchMethod_mem {text : List Char} {pm : POMap} {po : Int}
    (h : directSearchMethod text pm = some po) : poMem pm po = true := by
  obtain ⟨info, hi⟩ := directSearchGo_mem (m := pm) h
  exact poMem_of_mem hi

theorem m4aCandLoop_mem {pm : POMap} {job : List Char} {ns : List Nat} {po : Int}
    (h : m4aCandLoop pm job ns = some po) : poMem pm po = true := by
  induction ns with
  | nil => simp [m4aCandLoop] at h
  | cons n rest ih =>
      simp only [m4aCandLoop] at h
      split at h
      · rename_i info hl
        split at h
        · cases h; simp [poMem, hl]
        · exact ih h
      · exact ih h

theorem POStateMem_fuzzyScanMethod {pm : POMap} {text : List Char} {jobs : List String} :
    ∀ {st : POState}, POStateMem pm st →
      POStateMem pm (fuzzyScanMethod text pm st jobs) := by
  induction jobs with
  | nil => intro st h; exact h
  | cons j jobs ih =>
      intro st h
      simp only [fuzzyScanMethod]
      split
      · exact h
      · split
        · apply ih
          cases hm : m4aCandLoop pm j.data
              (reFindIter num3to5 (pySlice text
                (max 0 ((find_job_name_in_text text j.data (mkRat 3 4)).2.1 - 100)).toNat
                (min text.length
                  (((find_job_name_in_text text j.data (mkRat 3 4)).2.1).toNat
                    + j.data.length + 100)))) with
          | some po => exact m4aCandLoop_mem hm
          | none => exact h
        · exact ih h

theorem POStateMem_fuzzyBroadMethod {pm : POMap} {text : List Char} {jobs : List String} :
    ∀ {st : POState}, POStateMem pm st →
      POStateMem pm (fuzzyBroadMethod text pm st jobs) := by
  induction jobs with
  | nil => intro st h; exact h
  | cons j jobs ih =>
      intro st h
      simp only [fuzzyBroadMethod]
      split
      · exact h
      · split
        · apply ih
          cases hf : ((pm.filter (fun kv =>
                decide (mkRat 3 4 ≤ fuzzy_match_score ⟨kv.2.job_name.data⟩ ⟨j.data⟩))).map
                  (·.1)).find? (fun po => containsSub (intStr po) text) with
          | some po =>
              have hmem := List.mem_of_find?_eq_some hf
              obtain ⟨kv, hkv, hkv1⟩ := List.mem_map.mp hmem
              have hkm : kv ∈ pm := (List.mem_filter.mp hkv).1
              have : poMem pm po = true := by
                subst hkv1
                exact poMem_of_mem (show (kv.1, kv.2) ∈ pm by simpa using hkm)
              exact this
          | none => exact h
        · exact ih h

theorem match_invoice_with_claude_mem {ce : Bool} {text : List Char} {jobs : List String}
    {pm : POMap} {resp : Option (List Char)} {po : Int} {job : List Char} {conf : ℚ}
    (h : match_invoice_with_claude ce text jobs pm resp = some (po, job, conf)) :
    poMem pm po = true := by
  simp only [match_invoice_with_claude] at h
  repeat' split at h
  all_goals (cases h <;> assumption)

theorem POStateMem_methodChain {text : List Char} {pm : POMap} {jobs : List String}
    {st0 : POState} (h0 : POStateMem pm st0) :
    POStateMem pm (methodChain text pm jobs st0) := by
  simp only [methodChain]
  have h1 : POStateMem pm (tableColumnMethod text pm st0 headerPatterns) :=
    POStateMem_tableColumnMethod h0
  revert h1
  generalize tableColumnMethod text pm st0 headerPatterns = st1
  intro h1
  have h2 : POStateMem pm (if poTruthy st1 then st1
      else patternMethod text pm st1 poPatterns) := by
    split
    · exact h1
    · exact POStateMem_patternMethod h1
  revert h2
  generalize (if poTruthy st1 then st1 else patternMethod text pm st1 poPatterns) = st2
  intro h2
  have h3 : POStateMem pm (if !(poTruthy st2) && !pm.isEmpty then
      match directSearchMethod text pm with
      | some po => some (po, "Direct Search".data)
      | none => st2
    else st2) := by
    split
    · cases hd : directSearchMethod text pm with
      | some po => exact directSearchMethod_mem hd
      | none => exact h2
    · exact h2
  revert h3
  generalize (if !(poTruthy st2) && !pm.isEmpty then
      match directSearchMethod text pm with
      | some po => some (po, "Direct Search".data)
      | none => st2
    else st2) = st3
  intro h3
  split
  · have h4 : POStateMem pm (fuzzyScanMethod text pm st3 jobs) :=
      POStateMem_fuzzyScanMethod h3
    revert h4
    generalize fuzzyScanMethod text pm st3 jobs = st4
    intro h4
    split
    · exact h4
    · exact POStateMem_fuzzyBroadMethod h4
  · exact h3

theorem methodChain_mem {text : List Char} {pm : POMap} {jobs : List String}
    {st0 : POState} {po : Int} {mm : List Char} (h0 : POStateMem pm st0)
    (h : methodChain text pm jobs st0 = some (po, mm)) : poMem pm po = true := by
  have hm := @POStateMem_methodChain text pm jobs st0 h0
  rw [h] at hm
  exact hm

theorem findPONumber_mem {text : List Char} {pm : POMap} {ce : Bool}
    {jobs : List String} {resp : Option (List Char)} {po : Int} {mm : List Char}
    (h : findPONumber text pm ce jobs resp = some (po, mm)) : poMem pm po = true := by
  unfold findPONumber at h
  refine methodChain_mem ?_ h
  split
  · cases hc : match_invoice_with_claude ce text jobs pm resp with
    | some r =>
        obtain ⟨po', job', conf'⟩ := r
        dsimp only
        split
        · exact match_invoice_with_claude_mem hc
        · trivial
    | none => trivial
  · trivial

/-- If `extract_invoice_data` succeeds, the matched PO id is a key of the
eligible map (shared kernel of claims C1 and C2). -/
theorem extract_ok_mem {text : List Char} {pm : POMap} {ce : Bool}
    {jobs : List String} {resp : Option (List Char)} {d : SuccessData}
    (h : extract_invoice_data text pm ce jobs resp = some (.ok d)) :
    poMem pm d.po_id = true := by
  simp only [extract_invoice_data] at h
  split at h
  · cases h
  · split at h
    · cases h
    · split at h
      case _ po mm heq =>
        split at h
        · cases h
          exact findPONumber_mem heq
        · simp at h
      case _ heq => simp at h

/-! ## Invariants of the invoice-group table (towards claims C2, C6, C7, C8) -/

theorem groupsInsert_cases {gs : List Group} {inv : List Char} {idx : Nat}
    {t : List Char} {d : SuccessData} {g : Group}
    (hg : g ∈ groupsInsert gs inv idx t d) :
    (∃ g₀, g₀ ∈ gs ∧ g.inv_num = g₀.inv_num ∧ g.data = g₀.data ∧
      (g.pages = g₀.pages ∨ g.pages = g₀.pages ++ [idx])) ∨
    (g.inv_num = inv ∧ g.pages = [idx] ∧ g.data = d) := by
  unfold groupsInsert at hg
  split at hg
  · obtain ⟨g₀, hg₀, he⟩ := List.mem_map.mp hg
    by_cases hk : (g₀.inv_num == inv) = true
    · rw [if_pos hk] at he
      exact Or.inl ⟨g₀, hg₀, by rw [← he], by rw [← he], Or.inr (by rw [← he])⟩
    · rw [if_neg hk] at he
      exact Or.inl ⟨g₀, hg₀, by rw [← he], by rw [← he], Or.inl (by rw [← he])⟩
  · rcases List.mem_append.mp hg with h1 | h2
    · exact Or.inl ⟨g, h1, rfl, rfl, Or.inl rfl⟩
    · have hgeq : g = ⟨inv, [idx], [t], d⟩ := by simpa using h2
      subst hgeq
      exact Or.inr ⟨rfl, rfl, rfl⟩

theorem groupsInsert_keys_of_mem {gs : List Group} {inv : List Char} {idx : Nat}
    {t : List Char} {d : SuccessData}
    (hc : (gs.any (fun g => g.inv_num == inv)) = true) :
    (groupsInsert gs inv idx t d).map (fun g => g.inv_num)
      = gs.map (fun g => g.inv_num) := by
  unfold groupsInsert
  rw [if_pos hc, List.map_map]
  apply List.map_congr_left
  intro g _
  by_cases hk : (g.inv_num == inv) = true <;> simp [Function.comp, hk]

theorem groupsInsert_keys_of_not_mem {gs : List Group} {inv : List Char} {idx : Nat}
    {t : List Char} {d : SuccessData}
    (hc : (gs.any (fun g => g.inv_num == inv)) = false) :
    (groupsInsert gs inv idx t d).map (fun g => g.inv_num)
      = gs.map (fun g => g.inv_num) ++ [inv] := by
  unfold groupsInsert
  rw [if_neg (by simp [hc]), List.map_append]
  simp

/-- The state invariant of the page loop's group table, at next page number
`n`: invoice-number keys are distinct, page indices are strictly increasing
and below `n - 1`, and each group's set-once data carries its own key and
an eligible PO id. -/
def GroupsOK (pm : POMap) (n : Nat) (gs : List Group) : Prop :=
  (gs.map (fun g => g.inv_num)).Nodup ∧
  ∀ g ∈ gs, List.Chain' (· < ·) g.pages ∧ (∀ i ∈ g.pages, i + 1 < n) ∧
    g.data.invoice_number = g.inv_num ∧ poMem pm g.data.po_id = true

theorem GroupsOK_mono {pm : POMap} {n m : Nat} {gs : List Group}
    (hnm : n ≤ m) (h : GroupsOK pm n gs) : GroupsOK pm m gs :=
  ⟨h.1, fun g hg => ⟨(h.2 g hg).1,
    fun i hi => lt_of_lt_of_le ((h.2 g hg).2.1 i hi) hnm,
    (h.2 g hg).2.2.1, (h.2 g hg).2.2.2⟩⟩

theorem groupsInsert_OK {pm : POMap} {n : Nat} {gs : List Group} {t : List Char}
    {d : SuccessData} (hn : 1 ≤ n) (h : GroupsOK pm n gs)
    (hmem : poMem pm d.po_id = true) :
    GroupsOK pm (n + 1) (groupsInsert gs d.invoice_number (n - 1) t d) := by
  constructor
  · by_cases hc : (gs.any (fun g => g.inv_num == d.invoice_number)) = true
    · rw [groupsInsert_keys_of_mem hc]
      exact h.1
    · have hc' : (gs.any (fun g => g.inv_num == d.invoice_number)) = false := by
        simpa using hc
      rw [groupsInsert_keys_of_not_mem hc']
      refine h.1.append (List.nodup_singleton _) ?_
      intro a ha hb
      obtain ⟨g, hgmem, hge⟩ := List.mem_map.mp ha
      have hane : a = d.invoice_number := by simpa using hb
      have := List.any_eq_false.mp hc' g hgmem
      rw [hge, hane] at this
      simp at this
  · intro g hg
    rcases groupsInsert_cases hg with ⟨g₀, hg₀, hinv, hdata, hp⟩ | ⟨hinv, hp, hdata⟩
    · obtain ⟨hch, hbd, hkey, hpo⟩ := h.2 g₀ hg₀
      rcases hp with hp | hp
      · exact ⟨hp ▸ hch, fun i hi => by have := hbd i (hp ▸ hi); omega,
          by rw [hdata, hinv]; exact hkey, by rw [hdata]; exact hpo⟩
      · refine ⟨?_, ?_, by rw [hdata, hinv]; exact hkey, by rw [hdata]; exact hpo⟩
        · rw [hp]
          refine List.Chain'.append hch (List.chain'_singleton _) ?_
          intro x hx y hy
          have hxm : x ∈ g₀.pages := List.mem_of_mem_getLast? hx
          have := hbd x hxm
          have hyv : n - 1 = y := by simpa using hy
          omega
        · intro i hi
          rw [hp] at hi
          rcases List.mem_append.mp hi with hi | hi
          · have := hbd i hi; omega
          · have : i = n - 1 := by simpa using hi
            omega
    · refine ⟨?_, ?_, by rw [hdata, hinv], by rw [hdata]; exact hmem⟩
      · rw [hp]; exact List.chain'_singleton _
      · intro i hi
        rw [hp] at hi
        have : i = n - 1 := by simpa using hi
        omega

theorem runPagesFrom_OK {pm : POMap} {ce : Bool} {jobs : List String} {ts : List Char} :
    ∀ (ps : List PageInput) (st : LoopState) (n : Nat), 1 ≤ n →
      GroupsOK pm n st.groups →
      GroupsOK pm (n + ps.length) ((runPagesFrom pm ce jobs ts st n ps).groups) := by
  intro ps
  induction ps with
  | nil => intro st n hn h; simpa [runPagesFrom] using h
  | cons p ps ih =>
      intro st n hn h
      simp only [runPagesFrom]
      have hstep : GroupsOK pm (n + 1) ((pageStep pm ce jobs ts st n p).groups) := by
        simp only [pageStep]
        cases hx : extract_invoice_data p.text pm ce jobs p.claudeResp with
        | some r =>
            cases r with
            | ok d => exact groupsInsert_OK hn h (extract_ok_mem hx)
            | err e => exact GroupsOK_mono (by omega) h
        | none => exact GroupsOK_mono (by omega) h
      have hrec := ih (pageStep pm ce jobs ts st n p) (n + 1) (by omega) hstep
      simp only [List.length_cons]
      rw [show n + (ps.length + 1) = n + 1 + ps.length by omega]
      exact hrec

theorem process_groups_OK {pages : List PageInput} {pm : POMap} {ce : Bool}
    {jobs : List String} {ts : List Char} :
    GroupsOK pm (1 + pages.length) ((process_bulk_pdf pages pm ce jobs ts).groups) := by
  have h0 : GroupsOK pm 1 ((⟨0, [], [], []⟩ : LoopState).groups) :=
    ⟨List.nodup_nil, by intro g hg; cases hg⟩
  have hrun := @runPagesFrom_OK pm ce jobs ts pages ⟨0, [], [], []⟩ 1 (by omega) h0
  simpa [process_bulk_pdf, runPages] using hrun

theorem runPagesFrom_errors_suffix {pm : POMap} {ce : Bool} {jobs : List String}
    {ts : List Char} :
    ∀ (ps : List PageInput) (st : LoopState) (n : Nat),
      ∃ t2, (runPagesFrom pm ce jobs ts st n ps).errors = st.errors ++ t2 := by
  intro ps
  induction ps with
  | nil => intro st n; exact ⟨[], by simp [runPagesFrom]⟩
  | cons p ps ih =>
      intro st n
      simp only [runPagesFrom]
      obtain ⟨t2, ht⟩ := ih (pageStep pm ce jobs ts st n p) (n + 1)
      rw [ht]
      simp only [pageStep]
      cases hx : extract_invoice_data p.text pm ce jobs p.claudeResp with
      | some r =>
          cases r with
          | ok d => exact ⟨t2, rfl⟩
          | err e =>
              exact ⟨([⟨n, e.invoice_number, e.cost, "NO MATCHING PO FOUND".data,
                e.message, p.text.take 300⟩] : List ErrorEntry) ++ t2, by simp⟩
      | none => exact ⟨t2, rfl⟩

theorem runPagesFrom_mem_errors {pm : POMap} {ce : Bool} {jobs : List String}
    {ts : List Char} :
    ∀ (ps : List PageInput) (st : LoopState) (n k : Nat) (p : PageInput) (e : ErrData),
      ps[k]? = some p →
      extract_invoice_data p.text pm ce jobs p.claudeResp = some (.err e) →
      (⟨n + k, e.invoice_number, e.cost, "NO MATCHING PO FOUND".data, e.message,
        p.text.take 300⟩ : ErrorEntry) ∈ (runPagesFrom pm ce jobs ts st n ps).errors := by
  intro ps
  induction ps with
  | nil => intro st n k p e hk hx; simp at hk
  | cons q ps ih =>
      intro st n k p e hk hx
      simp only [runPagesFrom]
      cases k with
      | zero =>
          have hq : q = p := by simpa using hk
          subst hq
          obtain ⟨t2, ht⟩ :=
            runPagesFrom_errors_suffix ps (pageStep pm ce jobs ts st n q) (n + 1)
          rw [ht]
          have herr : (pageStep pm ce jobs ts st n q).errors
              = st.errors ++ [⟨n, e.invoice_number, e.cost,
                  "NO MATCHING PO FOUND".data, e.message, q.text.take 300⟩] := by
            simp [pageStep, hx]
          rw [herr]
          simp
      | succ k' =>
          have hk' : ps[k']? = some p := by simpa using hk
          have hrec := ih (pageStep pm ce jobs ts st n q) (n + 1) k' p e hk' hx
          rw [show n + (k' + 1) = n + 1 + k' by omega]
          exact hrec

theorem runPagesFrom_pages_src {pm : POMap} {ce : Bool} {jobs : List String}
    {ts : List Char} :
    ∀ (ps : List PageInput) (st : LoopState) (n : Nat), 1 ≤ n →
      ∀ g ∈ (runPagesFrom pm ce jobs ts st n ps).groups, ∀ i ∈ g.pages,
        (∃ g₀ ∈ st.groups, i ∈ g₀.pages) ∨
        ∃ j q d, ps[j]? = some q ∧ i = n - 1 + j ∧
          extract_invoice_data q.text pm ce jobs q.claudeResp = some (.ok d) := by
  intro ps
  induction ps with
  | nil =>
      intro st n hn g hg i hi
      exact Or.inl ⟨g, by simpa [runPagesFrom] using hg, hi⟩
  | cons q ps ih =>
      intro st n hn g hg i hi
      simp only [runPagesFrom] at hg
      rcases ih (pageStep pm ce jobs ts st n q) (n + 1) (by omega) g hg i hi with
        ⟨g₀, hg₀, hig₀⟩ | ⟨j, r, d, hj, hie, hx⟩
      · revert hg₀
        simp only [pageStep]
        cases hx : extract_invoice_data q.text pm ce jobs q.claudeResp with
        | some res =>
            cases res with
            | ok d =>
                intro hg₀
                have hg₀' : g₀ ∈ groupsInsert st.groups d.invoice_number (n - 1)
                    q.text d := hg₀
                rcases groupsInsert_cases hg₀' with ⟨g₁, hg₁, _, _, hp⟩ | ⟨_, hp, _⟩
                · rcases hp with hp | hp
                  · exact Or.inl ⟨g₁, hg₁, hp ▸ hig₀⟩
                  · rw [hp] at hig₀
                    rcases List.mem_append.mp hig₀ with hi1 | hi2
                    · exact Or.inl ⟨g₁, hg₁, hi1⟩
                    · have hiv : i = n - 1 := by simpa using hi2
                      exact Or.inr ⟨0, q, d, by simp, by omega, hx⟩
                · rw [hp] at hig₀
                  have hiv : i = n - 1 := by simpa using hig₀
                  exact Or.inr ⟨0, q, d, by simp, by omega, hx⟩
            | err e => intro hg₀; exact Or.inl ⟨g₀, hg₀, hig₀⟩
        | none => intro hg₀; exact Or.inl ⟨g₀, hg₀, hig₀⟩
      · exact Or.inr ⟨j + 1, r, d, by simpa using hj, by omega, hx⟩

/-! ## Invoice-number detector lemmas (towards claim C4) -/

theorem firstAccept_accept {acc : List Char → Bool} :
    ∀ {ps : List (List Char → Option (List Char))} {text c : List Char},
      firstAccept acc ps text = some c → acc c = true := by
  intro ps
  induction ps with
  | nil => intro text c h; simp [firstAccept] at h
  | cons p ps ih =>
      intro text c h
      simp only [firstAccept] at h
      split at h
      · split at h
        · cases h; assumption
        · exact ih h
      · exact ih h

theorem findInvoiceNumber_len {text inv : List Char}
    (h : findInvoiceNumber text = some inv) : 5 ≤ inv.length := by
  simp only [findInvoiceNumber] at h
  split at h
  · rename_i inv' hp
    cases h
    have hacc := firstAccept_accept hp
    simpa [primaryAccept] using hacc
  · have hacc := firstAccept_accept h
    simp [fallbackAccept] at hacc
    exact hacc.2

theorem map_toLower_ne_of_len {inv w : List Char} (h5 : 5 ≤ inv.length)
    (hw : w.length = 4) : inv.map Char.toLower ≠ w := by
  intro he
  have hl := congrArg List.length he
  simp only [List.length_map, hw] at hl
  omega

/-! ## Cost-format lemmas (towards claim C5) -/

theorem digitCh_isDigit {k : Nat} (hk : k < 10) : isDigitCh (digitCh k) = true := by
  interval_cases k <;> decide

theorem natDigitsAux_all_digit :
    ∀ (fuel n : Nat), n < fuel → ((natDigitsAux fuel n).all isDigitCh) = true := by
  intro fuel
  induction fuel with
  | zero => intro n h; omega
  | succ f ih =>
      intro n h
      simp only [natDigitsAux]
      split
      · rename_i h10
        simp [digitCh_isDigit h10]
      · rename_i h10
        have hd : n / 10 < f := by omega
        rw [List.all_append]
        simp [ih _ hd, digitCh_isDigit (Nat.mod_lt _ (by omega))]

theorem natDigits_all_digit (n : Nat) : ((natDigits n).all isDigitCh) = true :=
  natDigitsAux_all_digit _ _ (by omega)

theorem natDigitsAux_ne_nil :
    ∀ (fuel n : Nat), n < fuel → natDigitsAux fuel n ≠ [] := by
  intro fuel
  cases fuel with
  | zero => intro n h; omega
  | succ f =>
      intro n h
      simp only [natDigitsAux]
      split
      · simp
      · simp

theorem natDigits_ne_nil (n : Nat) : natDigits n ≠ [] :=
  natDigitsAux_ne_nil _ _ (by omega)

theorem pad2_digits : ∀ r : Nat, r < 100 →
    (padZeros 2 (natDigits r)).length = 2
      ∧ ((padZeros 2 (natDigits r)).all isDigitCh) = true := by decide

theorem fmtCents_format (c : Nat) : ∃ ds d1 d2, fmtCents c = ds ++ '.' :: [d1, d2]
    ∧ ds ≠ [] ∧ (ds.all isDigitCh) = true
    ∧ isDigitCh d1 = true ∧ isDigitCh d2 = true := by
  have h2 := pad2_digits (c % 100) (Nat.mod_lt _ (by omega))
  obtain ⟨d1, d2, hd⟩ := List.length_eq_two.mp h2.1
  have hall := h2.2
  rw [hd] at hall
  simp only [List.all_cons, List.all_nil, Bool.and_true, Bool.and_eq_true] at hall
  exact ⟨natDigits (c / 100), d1, d2, by simp [fmtCents, hd],
    natDigits_ne_nil _, natDigits_all_digit _, hall.1, hall.2⟩

/-! ## Truthy-state lemmas of the strategy chain (towards claim C3) -/

theorem tableColumnMethod_truthy {text : List Char} {pm : POMap} {st : POState}
    (h : poTruthy st = true) :
    ∀ hs, tableColumnMethod text pm st hs = st := by
  intro hs
  cases hs with
  | nil => simp [tableColumnMethod]
  | cons hd tl => simp [tableColumnMethod, h]

theorem methodChain_truthy {text : List Char} {pm : POMap} {jobs : List String}
    {st : POState} (h : poTruthy st = true) :
    methodChain text pm jobs st = st := by
  simp only [methodChain]
  rw [tableColumnMethod_truthy h]
  simp [h]

theorem groupsInsert_pages_ne_nil {gs : List Group} {inv : List Char} {idx : Nat}
    {t : List Char} {d : SuccessData} (h : ∀ g ∈ gs, g.pages ≠ []) :
    ∀ g ∈ groupsInsert gs inv idx t d, g.pages ≠ [] := by
  intro g hg
  rcases groupsInsert_cases hg with ⟨g₀, hg₀, _, _, hp | hp⟩ | ⟨_, hp, _⟩
  · rw [hp]; exact h g₀ hg₀
  · rw [hp]; simp
  · rw [hp]; simp

/-- Each group's set-once `data` is the extraction result of the group's
first page (provenance of the first acquiring match). -/
theorem runPagesFrom_first_data {pm : POMap} {ce : Bool} {jobs : List String}
    {ts : List Char} :
    ∀ (ps : List PageInput) (st : LoopState) (n : Nat), 1 ≤ n →
      (∀ g ∈ st.groups, g.pages ≠ []) →
      ∀ g ∈ (runPagesFrom pm ce jobs ts st n ps).groups,
        (∃ g₀ ∈ st.groups, g.data = g₀.data ∧ g.pages.headD 0 = g₀.pages.headD 0) ∨
        (∃ j p, ps[j]? = some p ∧ g.pages.headD 0 = n - 1 + j ∧
          extract_invoice_data p.text pm ce jobs p.claudeResp = some (.ok g.data)) := by
  intro ps
  induction ps with
  | nil =>
      intro st n hn hne g hg
      exact Or.inl ⟨g, by simpa [runPagesFrom] using hg, rfl, rfl⟩
  | cons q ps ih =>
      intro st n hn hne g hg
      simp only [runPagesFrom] at hg
      have hne' : ∀ g' ∈ (pageStep pm ce jobs ts st n q).groups, g'.pages ≠ [] := by
        simp only [pageStep]
        cases hx : extract_invoice_data q.text pm ce jobs q.claudeResp with
        | some r =>
            cases r with
            | ok d => exact groupsInsert_pages_ne_nil hne
            | err e => exact hne
        | none => exact hne
      rcases ih (pageStep pm ce jobs ts st n q) (n + 1) (by omega) hne' g hg with
        ⟨g₀, hg₀, hdata, hhead⟩ | ⟨j, p, hj, hhead, hx⟩
      · revert hg₀
        simp only [pageStep]
        cases hx : extract_invoice_data q.text pm ce jobs q.claudeResp with
        | some r =>
            cases r with
            | ok d =>
                intro hg₀
                have hg₀' : g₀ ∈ groupsInsert st.groups d.invoice_number (n - 1)
                    q.text d := hg₀
                rcases groupsInsert_cases hg₀' with
                  ⟨g₁, hg₁, _, hd1, hp1 | hp1⟩ | ⟨_, hp1, hd1⟩
                · exact Or.inl ⟨g₁, hg₁, by rw [hdata, hd1], by rw [hhead, hp1]⟩
                · refine Or.inl ⟨g₁, hg₁, by rw [hdata, hd1], ?_⟩
                  rw [hhead, hp1]
                  cases hgp : g₁.pages with
                  | nil => exact absurd hgp (hne g₁ hg₁)
                  | cons a l => simp [hgp]
                · refine Or.inr ⟨0, q, by simp, ?_, ?_⟩
                  · rw [hhead, hp1]; simp
                  · rw [hdata, hd1]; exact hx
            | err e =>
                intro hg₀
                exact Or.inl ⟨g₀, hg₀, hdata, hhead⟩
        | none =>
            intro hg₀
            exact Or.inl ⟨g₀, hg₀, hdata, hhead⟩
      · exact Or.inr ⟨j + 1, p, by simpa using hj, by omega, hx⟩

theorem process_first_data {pages : List PageInput} {pm : POMap} {ce : Bool}
    {jobs : List String} {ts : List Char} :
    ∀ g ∈ (process_bulk_pdf pages pm ce jobs ts).groups,
      ∃ j p, pages[j]? = some p ∧ g.pages.headD 0 = j ∧
        extract_invoice_data p.text pm ce jobs p.claudeResp = some (.ok g.data) := by
  intro g hg
  have hfd := @runPagesFrom_first_data pm ce jobs ts pages ⟨0, [], [], []⟩ 1 (by omega)
    (by intro g' hg'; simp at hg') g hg
  rcases hfd with ⟨g₀, hg₀, _⟩ | ⟨j, p, hj, hhead, hx⟩
  · simp at hg₀
  · exact ⟨j, p, hj, by omega, hx⟩

/-! ## Concrete inputs used by witnesses and counterexamples -/

def egPM : POMap := [(1012, ⟨"Bob", "SOMERVILLE", 0⟩)]

def egText : List Char := "INVOICE # 99999\nPO # 1012 SOMERVILLE".data

def egP1 : PageInput := ⟨"INVOICE # 11111\nPO # 1012 SOMERVILLE".data, none⟩

def egP2 : PageInput := ⟨"INVOICE # 22222\nPO # 1012 SOMERVILLE".data, none⟩

def egPMz : POMap := [(0, ⟨"Bob", "X", 0⟩)]

def egRespZ : List Char :=
  "MATCHED: YES\nJOB_NAME: X\nPO_NUMBER: 0\nCONFIDENCE: high".data

def egTextInv : List Char := "INVOICE # 99999".data

def egPMsvc : POMap := [(5, ⟨"Bob", "Service", 0⟩)]

def egPsvc : PageInput := ⟨"INVOICE # 99999\nPO # 0005 SERVICE".data, none⟩

def egPM7 : POMap := [(7, ⟨"Bob", "J", 0⟩)]

def egRespOk : List Char :=
  "MATCHED: YES\nJOB_NAME: J\nPO_NUMBER: 7\nCONFIDENCE: high".data

/-! ## The claims -/

/-- C1: whenever `extract_invoice_data` returns a successful (non-error)
result, its `po_id` is a key of the eligible-PO map supplied at run start,
for every page text, map, assist setting, job list and assist response —
hence for all five strategies. -/
theorem extract_ok_po_id_eligible (text : List Char) (pm : POMap) (ce : Bool)
    (jobs : List String) (resp : Option (List Char)) (d : SuccessData)
    (h : extract_invoice_data text pm ce jobs resp = some (.ok d)) :
    poMem pm d.po_id = true :=
  extract_ok_mem h

set_option maxRecDepth 10000 in
theorem extract_ok_po_id_eligible_witness : poMem egPM 1012 = true :=
  extract_ok_po_id_eligible egText egPM false [] none
    ⟨1012, "99999".data, "0.00".data, "Table Column".data⟩ (by decide)

/-- C2 (amended): every saved match targets an eligible PO, but the
eligible set is not pruned while the run proceeds, so two distinct invoice
groups may be persisted against the same PO id (see the counterexample). -/
theorem saved_po_id_eligible (pages : List PageInput) (pm : POMap) (ce : Bool)
    (jobs : List String) (ts : List Char) (s : SavedMatch)
    (hs : s ∈ (process_bulk_pdf pages pm ce jobs ts).saved) :
    poMem pm s.po_id = true := by
  have hOK := @process_groups_OK pages pm ce jobs ts
  have hs' : s ∈ ((process_bulk_pdf pages pm ce jobs ts).groups.map
      (fun g => saveGroup pm ts g)).map (fun pr => pr.1) := hs
  obtain ⟨pr, hpr, hpre⟩ := List.mem_map.mp hs'
  obtain ⟨g, hgmem, hge⟩ := List.mem_map.mp hpr
  have hpo := (hOK.2 g hgmem).2.2.2
  rw [← hpre, ← hge]
  exact hpo

set_option maxRecDepth 10000 in
theorem saved_po_id_eligible_witness : poMem egPM 1012 = true ∧ 1 ≤ (1012 : Int) :=
  ⟨saved_po_id_eligible [egP1] egPM false [] "TS".data
    ⟨1012, "PO1012_TS_INV11111.pdf".data, "11111".data, "0.00".data,
      "Table Column".data, [0]⟩ (by decide), by decide⟩

set_option maxRecDepth 10000 in
theorem po_reuse_two_groups :
    (process_bulk_pdf [egP1, egP2] egPM false [] "TS".data).saved.map
        (fun s => s.po_id) = [1012, 1012]
    ∧ (process_bulk_pdf [egP1, egP2] egPM false [] "TS".data).saved.map
        (fun s => s.invoice_number) = ["11111".data, "22222".data] := by decide

/-- C3 (amended): the assist maps high→0.95, medium→0.80, low→0.60 and
anything unrecognized→0.50, and an assist suggestion `(po, job, conf)`
becomes the final match when `po` is a *nonzero* integer in the eligible
set and `conf ≥ 0.60`; when `conf < 0.60` the chain behaves exactly as if
the assist were disabled (falls through to the table-column strategy).
Python's truthiness check `if claude_po and confidence >= 0.6` silently
rejects the eligible PO id 0 (see the counterexample). -/
theorem claude_accept_boundary (text : List Char) (pm : POMap) (jobs : List String)
    (resp : Option (List Char)) (hne : pm.isEmpty = false) :
    (confidenceScore "high".data = mkRat 95 100
      ∧ confidenceScore "medium".data = mkRat 80 100
      ∧ confidenceScore "low".data = mkRat 60 100
      ∧ confidenceScore "unrecognized".data = mkRat 1 2)
    ∧ (∀ po job conf,
        match_invoice_with_claude true text jobs pm resp = some (po, job, conf) →
        po ≠ 0 → mkRat 3 5 ≤ conf →
        findPONumber text pm true jobs resp = some (po, "Claude AI".data))
    ∧ (∀ po job conf,
        match_invoice_with_claude true text jobs pm resp = some (po, job, conf) →
        conf < mkRat 3 5 →
        findPONumber text pm true jobs resp = findPONumber text pm false jobs none)
    ∧ (∀ job conf,
        match_invoice_with_claude true text jobs pm resp = some (0, job, conf) →
        findPONumber text pm true jobs resp = findPONumber text pm false jobs none)
    ∧ (match_invoice_with_claude true text jobs pm resp = none →
        findPONumber text pm true jobs resp = findPONumber text pm false jobs none) := by
  refine ⟨⟨by decide, by decide, by decide, by decide⟩, ?_, ?_, ?_, ?_⟩
  · intro po job conf hc hpo hconf
    have ht : poTruthy (some (po, "Claude AI".data)) = true := by
      simp [poTruthy, hpo]
    simp only [findPONumber, hne, hc, Bool.not_false, Bool.and_true, if_true]
    rw [if_pos ⟨hpo, hconf⟩, methodChain_truthy ht]
  · intro po job conf hc hlt
    have h1 : (if po ≠ 0 ∧ mkRat 3 5 ≤ conf then
        (some (po, "Claude AI".data) : POState) else none) = none :=
      if_neg (fun hcon => absurd hcon.2 (not_le.mpr hlt))
    simp only [findPONumber, hne, hc, Bool.not_false, Bool.and_true, Bool.and_false,
      if_true, if_false, h1]
    simp
  · intro job conf hc
    have h1 : (if (0 : Int) ≠ 0 ∧ mkRat 3 5 ≤ conf then
        (some ((0 : Int), "Claude AI".data) : POState) else none) = none :=
      if_neg (fun hcon => hcon.1 rfl)
    simp only [findPONumber, hne, hc, Bool.not_false, Bool.and_true, Bool.and_false,
      if_true, if_false, h1]
    simp
  · intro hc
    simp only [findPONumber, hne, hc, Bool.not_false, Bool.and_true, Bool.and_false,
      if_true, if_false]
    simp

set_option maxRecDepth 10000 in
theorem claude_accept_boundary_witness :
    findPONumber egTextInv egPM7 true ["J"] (some egRespOk)
      = some (7, "Claude AI".data) :=
  (claude_accept_boundary egTextInv egPM7 ["J"] (some egRespOk) (by decide)).2.1
    7 "J".data (mkRat 95 100) (by decide) (by decide) (by decide)

set_option maxRecDepth 10000 in
theorem claude_zero_po_rejected :
    match_invoice_with_claude true egTextInv ["X"] egPMz (some egRespZ)
        = some (0, "X".data, mkRat 95 100)
    ∧ pyInt "0".data = some 0
    ∧ poMem egPMz 0 = true
    ∧ mkRat 3 5 ≤ mkRat 95 100
    ∧ extract_invoice_data egTextInv egPMz true ["X"] (some egRespZ)
        = some (.err ⟨"99999".data, "0.00".data,
            "Invoice 99999 - PO already has invoice or not approved".data⟩) := by
  decide

/-- C4: a detected invoice identifier always has length ≥ 5 and (having at
least five characters) its lowercase form can be none of the four-letter
tokens "date", "time", "page"; and a page on which no pattern yields an
acceptable candidate is recorded as unmatched. -/
theorem invoice_detector_contract (p : PageInput) (pm : POMap) (ce : Bool)
    (jobs : List String) (ts : List Char) (st : LoopState) (n : Nat) :
    (∀ inv, findInvoiceNumber p.text = some inv →
      5 ≤ inv.length ∧ inv.map Char.toLower ≠ "date".data
        ∧ inv.map Char.toLower ≠ "time".data ∧ inv.map Char.toLower ≠ "page".data)
    ∧ (findInvoiceNumber p.text = none →
        pageStep pm ce jobs ts st n p = ⟨st.processed + 1, st.groups, st.errors,
          st.unmatched ++ [⟨n, p.text.take 200,
            "UNMATCHED_".data ++ ts ++ "_page".data ++ natDigits n ++ ".pdf".data⟩]⟩) := by
  constructor
  · intro inv hinv
    have h5 := findInvoiceNumber_len hinv
    exact ⟨h5, map_toLower_ne_of_len h5 (by decide),
      map_toLower_ne_of_len h5 (by decide), map_toLower_ne_of_len h5 (by decide)⟩
  · intro hnone
    have hx : extract_invoice_data p.text pm ce jobs p.claudeResp = none := by
      simp only [extract_invoice_data]
      split
      · rfl
      · rw [hnone]
    simp [pageStep, hx]

set_option maxRecDepth 10000 in
theorem invoice_detector_contract_witness :
    (5 ≤ ("99999".data : List Char).length
      ∧ "99999".data.map Char.toLower ≠ "date".data
      ∧ "99999".data.map Char.toLower ≠ "time".data
      ∧ "99999".data.map Char.toLower ≠ "page".data)
    ∧ pageStep [] false [] "TS".data ⟨0, [], [], []⟩ 1 ⟨"hello world".data, none⟩
      = ⟨1, [], [], [⟨1, "hello world".data.take 200,
          "UNMATCHED_".data ++ "TS".data ++ "_page".data ++ natDigits 1
            ++ ".pdf".data⟩]⟩ :=
  ⟨(invoice_detector_contract ⟨egTextInv, none⟩ [] false [] "TS".data
      ⟨0, [], [], []⟩ 1).1 "99999".data (by decide),
   (invoice_detector_contract ⟨"hello world".data, none⟩ [] false [] "TS".data
      ⟨0, [], [], []⟩ 1).2 (by decide)⟩

/-- C5: the cost extractor tries TOTAL before Amount Due before Grand
Total (a TOTAL match decides the result whatever the others would say, via
the *last* occurrence of the label's amount), defaults to "0.00" when no
label matches, and its output always has the form `digits.dd`. -/
theorem cost_extractor_contract (text : List Char) :
    (∀ cap, (reFindIter costTotal text).getLast? = some cap →
      findCost text = fmtCents (capCents cap))
    ∧ (reFindIter costTotal text = [] →
        ∀ cap, (reFindIter costAmountDue text).getLast? = some cap →
          findCost text = fmtCents (capCents cap))
    ∧ (reFindIter costTotal text = [] → reFindIter costAmountDue text = [] →
        ∀ cap, (reFindIter costGrandTotal text).getLast? = some cap →
          findCost text = fmtCents (capCents cap))
    ∧ (reFindIter costTotal text = [] → reFindIter costAmountDue text = [] →
        reFindIter costGrandTotal text = [] → findCost text = "0.00".data)
    ∧ ∃ ds d1 d2, findCost text = ds ++ '.' :: [d1, d2]
        ∧ ds ≠ [] ∧ (ds.all isDigitCh) = true
        ∧ isDigitCh d1 = true ∧ isDigitCh d2 = true := by
  refine ⟨?_, ?_, ?_, ?_, ?_⟩
  · intro cap hcap
    simp [findCost, hcap]
  · intro h1 cap hcap
    simp [findCost, h1, hcap]
  · intro h1 h2 cap hcap
    simp [findCost, h1, h2, hcap]
  · intro h1 h2 h3
    simp [findCost, h1, h2, h3]
  · simp only [findCost]
    split
    · exact fmtCents_format _
    · split
      · exact fmtCents_format _
      · split
        · exact fmtCents_format _
        · exact ⟨['0'], '0', '0', by decide, by decide, by decide, by decide, by decide⟩

set_option maxRecDepth 10000 in
theorem cost_extractor_contract_witness :
    findCost "SUBTOTAL: $5.00\nTOTAL: $12.34".data
      = fmtCents (capCents ("12".data, '3', '4')) :=
  (cost_extractor_contract "SUBTOTAL: $5.00\nTOTAL: $12.34".data).1
    ("12".data, '3', '4') (by decide)

/-- C6: invoice groups are keyed by distinct invoice numbers (one output
document per detected invoice number), their page indices are strictly
increasing, each group's recorded data is the set-once result of the first
acquiring match (it is the extraction result of the group's first page and
carries the group's own invoice number), and the save loop emits exactly
one file per group. -/
theorem invoice_grouping_contract (pages : List PageInput) (pm : POMap) (ce : Bool)
    (jobs : List String) (ts : List Char) :
    ((process_bulk_pdf pages pm ce jobs ts).groups.map (fun g => g.inv_num)).Nodup
    ∧ (∀ g ∈ (process_bulk_pdf pages pm ce jobs ts).groups,
        List.Chain' (· < ·) g.pages ∧ g.data.invoice_number = g.inv_num)
    ∧ (∀ g ∈ (process_bulk_pdf pages pm ce jobs ts).groups,
        ∃ j p, pages[j]? = some p ∧ g.pages.headD 0 = j ∧
          extract_invoice_data p.text pm ce jobs p.claudeResp = some (.ok g.data))
    ∧ (process_bulk_pdf pages pm ce jobs ts).saved
        = (process_bulk_pdf pages pm ce jobs ts).groups.map
            (fun g => (saveGroup pm ts g).1)
    ∧ (process_bulk_pdf pages pm ce jobs ts).matched
        = (process_bulk_pdf pages pm ce jobs ts).groups.length := by
  have hOK := @process_groups_OK pages pm ce jobs ts
  refine ⟨hOK.1, fun g hg => ⟨(hOK.2 g hg).1, (hOK.2 g hg).2.2.1⟩,
    process_first_data, ?_, rfl⟩
  have hsaved : (process_bulk_pdf pages pm ce jobs ts).saved
      = ((process_bulk_pdf pages pm ce jobs ts).groups.map
          (fun g => saveGroup pm ts g)).map (fun pr => pr.1) := rfl
  rw [hsaved, List.map_map]
  rfl

set_option maxRecDepth 10000 in
theorem invoice_grouping_contract_witness :
    ((process_bulk_pdf [egP1, egP1] egPM false [] "TS".data).groups.map
        (fun g => g.pages)) = [[0, 1]]
    ∧ ((process_bulk_pdf [egP1, egP1] egPM false [] "TS".data).groups.map
        (fun g => g.inv_num)).Nodup :=
  ⟨by decide, (invoice_grouping_contract [egP1, egP1] egPM false [] "TS".data).1⟩

/-- C7 (amended): the output filename of a matched group is always
`PO%04d_<timestamp>_INV<invoice>.pdf`; the "S" prefix that
`format_po_number` gives Service jobs is not applied by the bulk save (see
the counterexample with a Service-job PO). -/
theorem saved_filename_format (pages : List PageInput) (pm : POMap) (ce : Bool)
    (jobs : List String) (ts : List Char) (s : SavedMatch)
    (hs : s ∈ (process_bulk_pdf pages pm ce jobs ts).saved) :
    s.filename = "PO".data ++ pyFormat04d s.po_id ++ "_".data ++ ts
      ++ "_INV".data ++ s.invoice_number ++ ".pdf".data := by
  have hs' : s ∈ ((process_bulk_pdf pages pm ce jobs ts).groups.map
      (fun g => saveGroup pm ts g)).map (fun pr => pr.1) := hs
  obtain ⟨pr, hpr, hpre⟩ := List.mem_map.mp hs'
  obtain ⟨g, hgmem, hge⟩ := List.mem_map.mp hpr
  subst hpre
  subst hge
  rfl

set_option maxRecDepth 10000 in
theorem saved_filename_format_witness :
    (⟨1012, "PO1012_TS_INV11111.pdf".data, "11111".data, "0.00".data,
        "Table Column".data, [0]⟩ : SavedMatch).filename
      = "PO".data ++ pyFormat04d (1012 : Int) ++ "_".data ++ "TS".data
        ++ "_INV".data ++ "11111".data ++ ".pdf".data :=
  saved_filename_format [egP1] egPM false [] "TS".data
    ⟨1012, "PO1012_TS_INV11111.pdf".data, "11111".data, "0.00".data,
      "Table Column".data, [0]⟩ (by decide)

set_option maxRecDepth 10000 in
theorem service_filename_not_s_prefixed :
    (process_bulk_pdf [egPsvc] egPMsvc false [] "TS".data).saved.map
        (fun s => s.filename) = ["PO0005_TS_INV99999.pdf".data]
    ∧ poLookup egPMsvc 5 = some ⟨"Bob", "Service", 0⟩
    ∧ format_po_number 5 "Service" = "S0005".data
    ∧ ("S".data.isPrefixOf "PO0005_TS_INV99999.pdf".data) = false := by
  decide

/-- C8: a page whose invoice number is detected but whose PO cannot be
resolved is appended to the errors list with its invoice number and cost
verbatim (and the fixed error text), and that page belongs to no invoice
group — hence to no output document and no details row. -/
theorem error_page_reporting (pages : List PageInput) (pm : POMap) (ce : Bool)
    (jobs : List String) (ts : List Char) (k : Nat) (p : PageInput) (e : ErrData)
    (hk : pages[k]? = some p)
    (hx : extract_invoice_data p.text pm ce jobs p.claudeResp = some (.err e)) :
    (⟨k + 1, e.invoice_number, e.cost, "NO MATCHING PO FOUND".data, e.message,
      p.text.take 300⟩ : ErrorEntry) ∈ (process_bulk_pdf pages pm ce jobs ts).errors
    ∧ (∀ g ∈ (process_bulk_pdf pages pm ce jobs ts).groups, k ∉ g.pages)
    ∧ (process_bulk_pdf pages pm ce jobs ts).details
        = (process_bulk_pdf pages pm ce jobs ts).groups.map
            (fun g => (saveGroup pm ts g).2) := by
  refine ⟨?_, ?_, ?_⟩
  case refine_3 =>
    have hdet : (process_bulk_pdf pages pm ce jobs ts).details
        = ((process_bulk_pdf pages pm ce jobs ts).groups.map
            (fun g => saveGroup pm ts g)).map (fun pr => pr.2) := rfl
    rw [hdet, List.map_map]
    rfl
  · have hmem := @runPagesFrom_mem_errors pm ce jobs ts pages ⟨0, [], [], []⟩ 1 k p e hk hx
    rw [show (1 : Nat) + k = k + 1 by omega] at hmem
    exact hmem
  · intro g hg hkin
    have hsrc := @runPagesFrom_pages_src pm ce jobs ts pages ⟨0, [], [], []⟩ 1
      (by omega) g hg k hkin
    rcases hsrc with ⟨g₀, hg₀, _⟩ | ⟨j, q, d, hj, hke, hxq⟩
    · simp at hg₀
    · have hkj : k = j := by omega
      subst hkj
      rw [hk] at hj
      cases hj
      rw [hx] at hxq
      simp at hxq

set_option maxRecDepth 10000 in
theorem error_page_reporting_witness :
    (⟨1, "99999".data, "0.00".data, "NO MATCHING PO FOUND".data,
        "Invoice 99999 - PO already has invoice or not approved".data,
        egTextInv.take 300⟩ : ErrorEntry)
      ∈ (process_bulk_pdf [⟨egTextInv, none⟩] [] false [] "TS".data).errors
    ∧ ∀ g ∈ (process_bulk_pdf [⟨egTextInv, none⟩] [] false [] "TS".data).groups,
        0 ∉ g.pages :=
  ⟨(error_page_reporting [⟨egTextInv, none⟩] [] false [] "TS".data 0 ⟨egTextInv, none⟩
      ⟨"99999".data, "0.00".data,
        "Invoice 99999 - PO already has invoice or not approved".data⟩
      (by decide) (by decide)).1,
   (error_page_reporting [⟨egTextInv, none⟩] [] false [] "TS".data 0 ⟨egTextInv, none⟩
      ⟨"99999".data, "0.00".data,
        "Invoice 99999 - PO already has invoice or not approved".data⟩
      (by decide) (by decide)).2.1⟩

/-- C9 (amended): `normalize_text_for_matching` is *not* idempotent (its
punctuation removal runs after whitespace collapsing and can create new
double spaces, see the counterexample), but it stabilizes after two
applications: normalize ∘ normalize is idempotent. -/
theorem normalize_stabilizes_after_two (s : String) :
    normalize_text_for_matching (normalize_text_for_matching
        (normalize_text_for_matching s))
      = normalize_text_for_matching (normalize_text_for_matching s) :=
  congrArg String.mk (normCore_three s.data)

theorem normalize_not_idempotent :
    normalize_text_for_matching (normalize_text_for_matching "A ! B")
      ≠ normalize_text_for_matching "A ! B" := by decide

/-- C10 (amended): the similarity score always lies in [0, 1] and is
symmetric, and `similarity(a, a) = 1` holds whenever `a` survives
normalization; a non-empty string consisting only of punctuation
normalizes to the empty string and scores 0 against itself (see the
counterexample). -/
theorem similarity_contract (a b : String) :
    0 ≤ fuzzy_match_score a b ∧ fuzzy_match_score a b ≤ 1
    ∧ fuzzy_match_score a b = fuzzy_match_score b a
    ∧ (normalize_text_for_matching a ≠ "" → fuzzy_match_score a a = 1) :=
  ⟨fuzzy_match_score_nonneg a b, fuzzy_match_score_le_one a b,
    fuzzy_match_score_comm a b, fun h => fuzzy_match_score_self a h⟩

theorem similarity_self_not_one :
    fuzzy_match_score "!" "!" = 0 ∧ ("!" : String) ≠ "" := by decide

end PORequestApp
